import Mathlib

/-!
Verification development for the horse-race simulation engine
(`src/utils/raceEngine.ts`) and the leaderboard aggregator
(`src/composables/useHorseRaceGame.ts`).

Modelling conventions:
* JavaScript numbers are modelled as rationals (`ℚ`); every place the source
  calls `Number(x.toFixed(2))` is modelled by `toFixed2`, rounding to the
  nearest hundredth (half away from zero, which for the non-negative values
  produced by the engine is half-up).
* A `RandomSource` (a stateful JS closure returning numbers in `[0,1)`) is
  modelled as a stream `ℕ → ℚ` together with an explicit draw index that is
  threaded through every computation in source order.
* The JS `Map` of horses is modelled as a lookup function `String → Option Horse`;
  an `invariant(...)` failure (a thrown `Error`) is modelled by `Option`/`Except`
  error results.
-/

namespace RaceEngine

/-- A stateful JS RNG modelled as an indexed stream of draws. -/
abbrev RandomSource : Type := ℕ → ℚ

/-- The RNG contract: every draw lies in `[0, 1)`. -/
def ValidRng (rng : RandomSource) : Prop := ∀ n, 0 ≤ rng n ∧ rng n < 1

/-- Model of `Number(x.toFixed(2))`: round to the nearest hundredth,
half away from zero for the non-negative values the engine produces. -/
def toFixed2 (q : ℚ) : ℚ := (⌊q * 100 + 1 / 2⌋ : ℚ) / 100

def MILLISECONDS_IN_SECOND : ℚ := 1000

def ROUND_DISTANCES : List ℚ := [1200, 1400, 1600, 1800, 2000, 2200]
def DEFAULT_HORSE_COUNT : ℕ := 20
def HORSES_PER_ROUND : ℕ := 10

def CONDITION_MIN : ℤ := 1
def CONDITION_MAX : ℤ := 100
def BASE_PACE_MIN : ℚ := 12
def BASE_PACE_CONDITION_SCALE : ℚ := 0.07
def BASE_PACE_RANDOM_SPREAD : ℚ := 2.2

def CONDITION_MULTIPLIER_BASE : ℚ := 0.78
def CONDITION_MULTIPLIER_SCALE : ℚ := 100
def RANDOM_PULSE_BASE : ℚ := 0.9
def RANDOM_PULSE_RANGE : ℚ := 0.25
def FATIGUE_MAX_PENALTY : ℚ := 0.2
def LATE_BOOST_TRIGGER_PROGRESS : ℚ := 0.82
def LATE_BOOST_BASE : ℚ := 1.05
def LATE_BOOST_RANGE : ℚ := 0.08
def MINIMUM_SPEED_MPS : ℚ := 4.2

def MAX_SIMULATION_DURATION_MS : ℚ := 600000

structure Horse where
  id : String
  name : String
  color : String
  condition : ℚ
  basePace : ℚ
deriving DecidableEq, Repr

structure RaceRound where
  id : ℕ
  distance : ℚ
  horseIds : List String
  status : String
deriving DecidableEq, Repr

structure RaceRoundDefinition where
  id : ℕ
  distance : ℚ
  horseIds : List String
  status : Option String := none
deriving DecidableEq, Repr

structure RoundEntry where
  horseId : String
  lane : ℕ
  distanceCovered : ℚ
  progress : ℚ
  lastSpeed : ℚ
  bestSpeed : ℚ
  finishTimeMs : Option ℚ
deriving DecidableEq, Repr

structure RoundState where
  roundId : ℕ
  distance : ℚ
  elapsedMs : ℚ
  entries : List RoundEntry
  complete : Bool
deriving DecidableEq, Repr

structure RoundResultItem where
  position : ℕ
  horseId : String
  horseName : String
  lane : ℕ
  timeMs : ℚ
  bestSpeed : ℚ
  condition : ℚ
deriving DecidableEq, Repr

structure RoundResult where
  roundId : ℕ
  distance : ℚ
  finishedAtMs : ℚ
  order : List RoundResultItem
deriving DecidableEq, Repr

/-- The JS `Map`-backed horse lookup. -/
abbrev HorseMap : Type := String → Option Horse

def HORSE_NAME_POOL : List String :=
  ["Crimson Arrow", "Northern Comet", "Silver Tempest", "Amber Quill", "Iron Echo",
   "Midnight Orbit", "Wild Sonata", "Ivory Rider", "Emerald Fuse", "Blue Monarch",
   "Rapid Lantern", "Golden Crest", "Velvet Falcon", "Storm Herald", "Arctic Flame",
   "Violet Signal", "Echo Mirage", "Dusty Nova", "Scarlet Cipher", "Cloud Voyager",
   "Ruby Atlas", "Cinder Pulse", "Frost Cardinal", "Titan Comet", "Lunar Horizon",
   "Copper Zephyr", "Night Atlas", "Solar Rally", "Royal Drift", "Mystic Rivet",
   "Granite Saber", "Quartz Runner", "Cobalt Aurora", "Dune Prophet", "Ivory Titan",
   "Crimson Vega", "Jade Voltage", "Neon Crusader", "Prairie Echo", "Opal Jet"]

def HORSE_COLOR_PALETTE : List String :=
  ["#e81717", "#ec713c", "#e89417", "#ecda3c", "#bee817",
   "#94ec3c", "#41e817", "#3cec4e", "#17e86b", "#3cecb7",
   "#17e8e8", "#3cb7ec", "#176be8", "#3c4eec", "#4117e8",
   "#943cec", "#be17e8", "#ec3cda", "#e81794", "#ec3c71"]

/-- `randomInt(min, max, rng)` from the source: one draw, floored into the
inclusive integer range.  Returns the value together with the next draw index. -/
def randomInt (lo hi : ℤ) (rng : RandomSource) (k : ℕ) : ℤ × ℕ :=
  (⌊rng k * ((hi : ℚ) - (lo : ℚ) + 1)⌋ + lo, k + 1)

/-- Swap the elements of a list at two (in-bounds) indices, as the JS
destructuring swap inside `shuffle` does. -/
def swapL {α : Type _} (l : List α) (i j : ℕ) : List α :=
  if h : i < l.length ∧ j < l.length then
    (l.set i (l.get ⟨j, h.2⟩)).set j (l.get ⟨i, h.1⟩)
  else l

/-- The Fisher–Yates loop of `shuffle`, iterating the index from `i` down to `1`:
at index `i` it draws `swapIndex = ⌊rng() * (i + 1)⌋` and swaps. -/
def shuffleAux {α : Type _} (rng : RandomSource) : ℕ → List α → ℕ → List α × ℕ
  | 0, l, k => (l, k)
  | i + 1, l, k =>
      shuffleAux rng i (swapL l (i + 1) ((⌊rng k * ((i : ℚ) + 2)⌋).toNat)) (k + 1)

/-- `shuffle(items, rng)`: Fisher–Yates on a copy, from the last index down. -/
def shuffle {α : Type _} (items : List α) (rng : RandomSource) (k : ℕ) : List α × ℕ :=
  shuffleAux rng (items.length - 1) items k

/-- `sample(items, count, rng)`: invariant check, then shuffle and take a prefix. -/
def sample {α : Type _} (items : List α) (count : ℕ) (rng : RandomSource) (k : ℕ) :
    Except String (List α × ℕ) :=
  if count ≤ items.length then
    let p := shuffle items rng k
    Except.ok (p.1.take count, p.2)
  else Except.error "Cannot sample more items than available"

/-- The body of the `names.map((name, index) => ...)` loop in `createHorsePool`:
per horse one `randomInt` draw for the condition and one raw draw for the pace. -/
def buildHorses (rng : RandomSource) (colors : List String) :
    List String → ℕ → ℕ → List Horse
  | [], _, _ => []
  | name :: rest, index, k =>
      let ci := randomInt CONDITION_MIN CONDITION_MAX rng k
      let condition : ℚ := (ci.1 : ℚ)
      let basePace : ℚ :=
        toFixed2 (BASE_PACE_MIN + condition * BASE_PACE_CONDITION_SCALE +
          rng ci.2 * BASE_PACE_RANDOM_SPREAD)
      { id := "horse-" ++ toString (index + 1),
        name := name,
        color := colors.getD index "",
        condition := condition,
        basePace := basePace } :: buildHorses rng colors rest (index + 1) (ci.2 + 1)

/-- `createHorsePool(count, rng)`: guard the three invariants, sample names and
colors without replacement, then build the horses positionally. -/
def createHorsePool (count : ℕ) (rng : RandomSource) (k : ℕ) : Except String (List Horse) :=
  if count = 0 then Except.error "Horse count must be greater than zero"
  else if ¬ count ≤ HORSE_NAME_POOL.length then
    Except.error "Horse count exceeds available unique names"
  else if ¬ count ≤ HORSE_COLOR_PALETTE.length then
    Except.error "Horse count exceeds available predefined colors"
  else
    match sample HORSE_NAME_POOL count rng k with
    | Except.error e => Except.error e
    | Except.ok (names, k1) =>
      match sample HORSE_COLOR_PALETTE count rng k1 with
      | Except.error e => Except.error e
      | Except.ok (colors, k2) => Except.ok (buildHorses rng colors names 0 k2)

/-- The `ROUND_DISTANCES.map((distance, roundIndex) => ...)` loop of
`buildRaceSchedule`, threading the RNG draw index through the per-round samples. -/
def buildRounds (horseIds : List String) (rng : RandomSource) :
    List ℚ → ℕ → ℕ → Except String (List RaceRound)
  | [], _, _ => Except.ok []
  | d :: ds, roundIndex, k =>
      match sample horseIds HORSES_PER_ROUND rng k with
      | Except.error e => Except.error e
      | Except.ok (ids, k1) =>
        match buildRounds horseIds rng ds (roundIndex + 1) k1 with
        | Except.error e => Except.error e
        | Except.ok rest =>
            Except.ok ({ id := roundIndex + 1, distance := d, horseIds := ids,
                         status := "pending" } :: rest)

/-- `buildRaceSchedule(horses, rng)`: require at least `HORSES_PER_ROUND` horses,
then build one round per fixed distance. -/
def buildRaceSchedule (horses : List Horse) (rng : RandomSource) (k : ℕ) :
    Except String (List RaceRound) :=
  if HORSES_PER_ROUND ≤ horses.length then
    buildRounds (horses.map (·.id)) rng ROUND_DISTANCES 0 k
  else Except.error "At least 10 horses are required"

/-- The `round.horseIds.map((horseId, index) => ...)` loop of `createRoundState`;
`none` models the thrown missing-entity invariant. -/
def mkEntries (hm : HorseMap) : List String → ℕ → Option (List RoundEntry)
  | [], _ => some []
  | hid :: rest, index =>
      match hm hid with
      | none => none
      | some _ =>
          (mkEntries hm rest (index + 1)).map fun es =>
            ({ horseId := hid, lane := index + 1, distanceCovered := 0, progress := 0,
               lastSpeed := 0, bestSpeed := 0, finishTimeMs := none } : RoundEntry) :: es

/-- `createRoundState(round, horseMap)`. -/
def createRoundState (round : RaceRoundDefinition) (hm : HorseMap) : Option RoundState :=
  (mkEntries hm round.horseIds 0).map fun es =>
    { roundId := round.id, distance := round.distance, elapsedMs := 0,
      entries := es, complete := false }

/-- `calculateSpeedMetersPerSecond`: one draw for the random pulse and, when the
late-boost triggers, a second draw for the boost.  Returns the speed (floored at
`MINIMUM_SPEED_MPS`) and the next draw index. -/
def calculateSpeedMetersPerSecond (horse : Horse) (entry : RoundEntry)
    (roundDistance : ℚ) (rng : RandomSource) (k : ℕ) : ℚ × ℕ :=
  let progressFrac := entry.distanceCovered / roundDistance
  let conditionMultiplier :=
    CONDITION_MULTIPLIER_BASE + horse.condition / CONDITION_MULTIPLIER_SCALE
  let randomPulse := RANDOM_PULSE_BASE + rng k * RANDOM_PULSE_RANGE
  let fatigue := 1 - progressFrac * FATIGUE_MAX_PENALTY
  let boost : ℚ × ℕ :=
    if LATE_BOOST_TRIGGER_PROGRESS < progressFrac then
      (LATE_BOOST_BASE + rng (k + 1) * LATE_BOOST_RANGE, k + 2)
    else (1, k + 1)
  let pace := horse.basePace * conditionMultiplier * randomPulse * fatigue * boost.1
  (max MINIMUM_SPEED_MPS pace, boost.2)

/-- The `stepRound` loop body for one not-yet-finished entry whose horse was
found: advance distance, clamp, update speeds, and interpolate the finish time
on crossing.  Returns the updated entry and the next draw index. -/
def stepEntry (horse : Horse) (distance deltaSeconds elapsedMs deltaMs : ℚ)
    (rng : RandomSource) (k : ℕ) (e : RoundEntry) : RoundEntry × ℕ :=
  let sp := calculateSpeedMetersPerSecond horse e distance rng k
  let speed := sp.1
  let distanceDelta := speed * deltaSeconds
  let tentativeDistance := e.distanceCovered + distanceDelta
  let clampedDistance := min distance tentativeDistance
  let progress := clampedDistance / distance
  let lastSpeed := toFixed2 speed
  let finish : Option ℚ :=
    if distance ≤ clampedDistance then
      let overshootDistance := max 0 (tentativeDistance - distance)
      let overshootMs :=
        if 0 < speed then overshootDistance / speed * MILLISECONDS_IN_SECOND else 0
      some (toFixed2 (elapsedMs + deltaMs - overshootMs))
    else none
  ({ e with distanceCovered := clampedDistance,
            progress := min 1 progress,
            lastSpeed := lastSpeed,
            bestSpeed := max e.bestSpeed lastSpeed,
            finishTimeMs := finish }, sp.2)

/-- The `for (const entry of roundState.entries)` loop of `stepRound`: finished
entries are skipped before any lookup or draw; `none` models the thrown
missing-entity invariant. -/
def stepEntries (hm : HorseMap) (distance deltaSeconds elapsedMs deltaMs : ℚ)
    (rng : RandomSource) : List RoundEntry → ℕ → Option (List RoundEntry × ℕ)
  | [], k => some ([], k)
  | e :: rest, k =>
      if e.finishTimeMs.isSome then
        (stepEntries hm distance deltaSeconds elapsedMs deltaMs rng rest k).map
          fun p => (e :: p.1, p.2)
      else
        match hm e.horseId with
        | none => none
        | some horse =>
            let p := stepEntry horse distance deltaSeconds elapsedMs deltaMs rng k e
            (stepEntries hm distance deltaSeconds elapsedMs deltaMs rng rest p.2).map
              fun q => (p.1 :: q.1, q.2)

/-- `stepRound(roundState, deltaMs, horseMap, rng)`. -/
def stepRound (roundState : RoundState) (deltaMs : ℚ) (hm : HorseMap)
    (rng : RandomSource) (k : ℕ) : Option (RoundState × ℕ) :=
  if roundState.complete = true ∨ deltaMs ≤ 0 then some (roundState, k)
  else
    (stepEntries hm roundState.distance (deltaMs / MILLISECONDS_IN_SECOND)
        roundState.elapsedMs deltaMs rng roundState.entries k).map fun p =>
      ({ roundState with
          elapsedMs := toFixed2 (roundState.elapsedMs + deltaMs),
          entries := p.1,
          complete := p.1.all fun e => e.finishTimeMs.isSome }, p.2)

/-- `isRoundComplete(roundState)`. -/
def isRoundComplete (roundState : RoundState) : Bool :=
  roundState.entries.all fun e => e.finishTimeMs.isSome

/-- `finishTimeMs ?? Number.POSITIVE_INFINITY` as an element of `WithTop ℚ`. -/
def timeKey (e : RoundEntry) : WithTop ℚ :=
  match e.finishTimeMs with
  | some t => (t : WithTop ℚ)
  | none => ⊤

/-- The `getRoundRanking` comparator as a "compares at most 0" test: ascending
finish time (unfinished = infinity), then descending distance, then ascending lane. -/
def rankLE (left right : RoundEntry) : Bool :=
  if timeKey left ≠ timeKey right then decide (timeKey left < timeKey right)
  else if left.distanceCovered ≠ right.distanceCovered then
    decide (right.distanceCovered < left.distanceCovered)
  else decide (left.lane ≤ right.lane)

/-- The `getRoundRanking` comparator as a "compares strictly below 0" test:
`rankBefore a b` holds exactly when the comparator puts `a` strictly ahead of `b`. -/
def rankBefore (left right : RoundEntry) : Bool :=
  if timeKey left ≠ timeKey right then decide (timeKey left < timeKey right)
  else if left.distanceCovered ≠ right.distanceCovered then
    decide (right.distanceCovered < left.distanceCovered)
  else decide (left.lane < right.lane)

/-- `getRoundRanking(roundState)`: sort a copy of the entries by the comparator. -/
def getRoundRanking (roundState : RoundState) : List RoundEntry :=
  roundState.entries.mergeSort rankLE

/-- The `ranking.map((entry, index) => ...)` loop of `buildRoundResult`. -/
def buildResultItems (hm : HorseMap) (elapsedMs : ℚ) :
    List RoundEntry → ℕ → Option (List RoundResultItem)
  | [], _ => some []
  | e :: rest, index =>
      match hm e.horseId with
      | none => none
      | some horse =>
          (buildResultItems hm elapsedMs rest (index + 1)).map fun items =>
            ({ position := index + 1, horseId := e.horseId, horseName := horse.name,
               lane := e.lane, timeMs := toFixed2 (e.finishTimeMs.getD elapsedMs),
               bestSpeed := toFixed2 e.bestSpeed,
               condition := horse.condition } : RoundResultItem) :: items

/-- `buildRoundResult(roundState, horseMap)`. -/
def buildRoundResult (roundState : RoundState) (hm : HorseMap) : Option RoundResult :=
  (buildResultItems hm roundState.elapsedMs (getRoundRanking roundState) 0).map fun items =>
    { roundId := roundState.roundId, distance := roundState.distance,
      finishedAtMs := roundState.elapsedMs, order := items }

/-- The `while (!roundState.complete && roundState.elapsedMs < MAX...)` loop of
`simulateRound`, with explicit fuel: `none` means the fuel ran out before the
loop exited, `some none` models a missing-entity throw inside `stepRound`. -/
def simLoop (hm : HorseMap) (rng : RandomSource) (stepMs : ℚ) :
    ℕ → RoundState → ℕ → Option (Option (RoundState × ℕ))
  | 0, s, k =>
      if s.complete = true ∨ ¬ s.elapsedMs < MAX_SIMULATION_DURATION_MS then
        some (some (s, k))
      else none
  | fuel + 1, s, k =>
      if s.complete = true ∨ ¬ s.elapsedMs < MAX_SIMULATION_DURATION_MS then
        some (some (s, k))
      else
        match stepRound s stepMs hm rng k with
        | none => some none
        | some p => simLoop hm rng stepMs fuel p.1 p.2

/-- `simulateRound(round, horseMap, rng, stepMs)` with explicit loop fuel.
`none` = the fuel bound was hit; otherwise the `Except` carries either the built
round result or the thrown error (missing entity / simulation timeout). -/
def simulateRound (round : RaceRoundDefinition) (hm : HorseMap) (rng : RandomSource)
    (stepMs : ℚ) (k : ℕ) (fuel : ℕ) : Option (Except String RoundResult) :=
  match createRoundState round hm with
  | none => some (Except.error "Horse was not found in the horse map")
  | some s0 =>
      (simLoop hm rng stepMs fuel s0 k).map fun r =>
        match r with
        | none => Except.error "Horse was not found in the horse map"
        | some (s, _) =>
            if s.complete = true then
              match buildRoundResult s hm with
              | some res => Except.ok res
              | none => Except.error "Horse was not found in the horse map"
            else Except.error "Round simulation timed out"

/-! Leaderboard aggregation from `useHorseRaceGame.ts`. -/

def PODIUM_FIRST_POSITION : ℕ := 1
def PODIUM_MAX_POSITION : ℕ := 3
def PARTICIPATION_POINTS : ℕ := 1
def FALLBACK_CONDITION_SCORE : ℚ := 0

/-- `POINTS_BY_PODIUM_POSITION[position] ?? PARTICIPATION_POINTS`. -/
def pointsForPosition (position : ℕ) : ℕ :=
  if position = 1 then 5
  else if position = 2 then 3
  else if position = 3 then 2
  else PARTICIPATION_POINTS

structure SummaryRow where
  horseId : String
  name : String
  color : String
  condition : ℚ
  rounds : ℕ
  podiums : ℕ
  wins : ℕ
  points : ℕ
  totalTimeMs : ℚ
deriving DecidableEq, Repr

structure LeaderboardRow where
  horseId : String
  name : String
  color : String
  condition : ℚ
  rounds : ℕ
  podiums : ℕ
  wins : ℕ
  points : ℕ
  totalTimeMs : ℚ
  avgTimeMs : ℚ
deriving DecidableEq, Repr

/-- The initial summary row for one horse. -/
def initRow (h : Horse) : SummaryRow :=
  { horseId := h.id, name := h.name, color := h.color, condition := h.condition,
    rounds := 0, podiums := 0, wins := 0, points := 0, totalTimeMs := 0 }

/-- The per-item mutation of the matching summary row inside `buildLeaderboard`. -/
def bumpRow (row : SummaryRow) (item : RoundResultItem) : SummaryRow :=
  { row with
    rounds := row.rounds + 1,
    totalTimeMs := row.totalTimeMs + item.timeMs,
    wins := row.wins + (if item.position = PODIUM_FIRST_POSITION then 1 else 0),
    podiums := row.podiums + (if item.position ≤ PODIUM_MAX_POSITION then 1 else 0),
    points := row.points + pointsForPosition item.position }

/-- Process one result item against the summary: the row keyed by the item's
horse id (if any) is bumped; an unknown id leaves the summary unchanged
(the `continue`). -/
def applyItem (rows : List SummaryRow) (item : RoundResultItem) : List SummaryRow :=
  rows.map fun row => if row.horseId = item.horseId then bumpRow row item else row

/-- Fold all result items over the initial per-horse summary rows. -/
def summaryFold (horses : List Horse) (results : List RoundResult) : List SummaryRow :=
  results.foldl (fun acc r => r.order.foldl applyItem acc) (horses.map initRow)

/-- Attach the average time: `totalTimeMs / rounds` rounded to two decimals,
`0` for zero rounds. -/
def finalizeRow (row : SummaryRow) : LeaderboardRow :=
  { horseId := row.horseId, name := row.name, color := row.color,
    condition := row.condition, rounds := row.rounds, podiums := row.podiums,
    wins := row.wins, points := row.points, totalTimeMs := row.totalTimeMs,
    avgTimeMs := if 0 < row.rounds then toFixed2 (row.totalTimeMs / (row.rounds : ℚ)) else 0 }

/-- `horseLookup.get(id)?.condition ?? FALLBACK_CONDITION_SCORE`. -/
def condOf (horses : List Horse) (horseId : String) : ℚ :=
  ((horses.find? fun h => h.id == horseId).map Horse.condition).getD FALLBACK_CONDITION_SCORE

/-- The leaderboard sort comparator as a "compares at most 0" test: descending
points, then ascending average time, then descending looked-up condition. -/
def lbLE (horses : List Horse) (left right : LeaderboardRow) : Bool :=
  if left.points ≠ right.points then decide (right.points < left.points)
  else if left.avgTimeMs ≠ right.avgTimeMs then decide (left.avgTimeMs < right.avgTimeMs)
  else decide (condOf horses right.horseId ≤ condOf horses left.horseId)

/-- `buildLeaderboard(horses, results)`. -/
def buildLeaderboard (horses : List Horse) (results : List RoundResult) :
    List LeaderboardRow :=
  ((summaryFold horses results).map finalizeRow).mergeSort (lbLE horses)

/-- All result items referencing `hid`, in result order. -/
def itemsFor (hid : String) (results : List RoundResult) : List RoundResultItem :=
  ((results.map (·.order)).flatten).filter fun it => it.horseId == hid

/-- The effect of `applyItem` on a single row. -/
def bumpIf (row : SummaryRow) (item : RoundResultItem) : SummaryRow :=
  if row.horseId = item.horseId then bumpRow row item else row

/-- Fold a flat item list over one row. -/
def tallyItems (items : List RoundResultItem) (row : SummaryRow) : SummaryRow :=
  items.foldl bumpIf row

/-- Fold all items of all results over one row. -/
def tallyResults (results : List RoundResult) (row : SummaryRow) : SummaryRow :=
  results.foldl (fun r res => res.order.foldl bumpIf r) row

/-- Reachable round states: freshly created by `createRoundState`, or obtained
from a reachable state by one (successful) `stepRound` call with an arbitrary
time increment, RNG stream and draw index. -/
inductive Reach (round : RaceRoundDefinition) (hm : HorseMap) : RoundState → Prop where
  | base (s : RoundState) : createRoundState round hm = some s → Reach round hm s
  | step (s : RoundState) (deltaMs : ℚ) (rng : RandomSource) (k : ℕ)
      (s' : RoundState) (k' : ℕ) : Reach round hm s →
      stepRound s deltaMs hm rng k = some (s', k') → Reach round hm s'

/-- How one `stepRound` call transforms a single entry: finished entries are
frozen; an unfinished entry is replaced by `stepEntry` for its looked-up horse
at some draw index. -/
def EntryEvolves (hm : HorseMap) (distance deltaSeconds elapsedMs deltaMs : ℚ)
    (rng : RandomSource) (e e' : RoundEntry) : Prop :=
  (e.finishTimeMs ≠ none → e' = e) ∧
  (e.finishTimeMs = none → ∃ horse k, hm e.horseId = some horse ∧
    e' = (stepEntry horse distance deltaSeconds elapsedMs deltaMs rng k e).1)

/-- The per-entry state invariant for a round over a given distance. -/
def EntryInv (d : ℚ) (e : RoundEntry) : Prop :=
  0 ≤ e.distanceCovered ∧ e.distanceCovered ≤ d ∧
  e.progress = min 1 (e.distanceCovered / d)

/-! ### Concrete inputs used by witnesses and counterexamples -/

/-- The all-zero RNG stream (every draw is `0`, a legal `[0,1)` value). -/
def rng0 : RandomSource := fun _ => 0

def wHorse : Horse :=
  { id := "h1", name := "Ace", color := "#e81717", condition := 50, basePace := 12 }

def wMap : HorseMap := fun s => if s = "h1" then some wHorse else none

def wDef : RaceRoundDefinition := { id := 1, distance := 1200, horseIds := ["h1"] }

def wEntry : RoundEntry :=
  { horseId := "h1", lane := 1, distanceCovered := 0, progress := 0, lastSpeed := 0,
    bestSpeed := 0, finishTimeMs := none }

def wState : RoundState :=
  { roundId := 1, distance := 1200, elapsedMs := 0, entries := [wEntry], complete := false }

/-- A degenerate competitor record (zero pace) used to pin down the speed floor. -/
def zHorse : Horse :=
  { id := "z1", name := "Zed", color := "#17e8e8", condition := 0, basePace := 0 }

def zMap : HorseMap := fun s => if s = "z1" then some zHorse else none

def zEntry : RoundEntry :=
  { horseId := "z1", lane := 1, distanceCovered := 0, progress := 0, lastSpeed := 0,
    bestSpeed := 0, finishTimeMs := none }

def zState : RoundState :=
  { roundId := 1, distance := 1, elapsedMs := 0, entries := [zEntry], complete := false }

/-- The state `zState` reaches after one `stepRound` of 1000 ms with `rng0`. -/
def zStateAfter : RoundState :=
  { roundId := 1, distance := 1, elapsedMs := 1000,
    entries := [{ horseId := "z1", lane := 1, distanceCovered := 1, progress := 1,
                  lastSpeed := 21/5, bestSpeed := 21/5, finishTimeMs := some (2381/10) }],
    complete := true }

/-- A round definition with an empty competitor list. -/
def emptyDef : RaceRoundDefinition := { id := 1, distance := 1200, horseIds := [] }

def cHorse1 : Horse :=
  { id := "c1", name := "Low", color := "#111111", condition := 50, basePace := 12 }

def cHorse2 : Horse :=
  { id := "c2", name := "High", color := "#222222", condition := 60, basePace := 12 }

def lbItem : RoundResultItem :=
  { position := 1, horseId := "h1", horseName := "Ace", lane := 1, timeMs := 1/3,
    bestSpeed := 5, condition := 50 }

def lbResult : RoundResult :=
  { roundId := 1, distance := 1200, finishedAtMs := 1, order := [lbItem] }

def tenHorses : List Horse :=
  (List.range 10).map fun i =>
    { id := "horse-" ++ toString (i + 1), name := "H" ++ toString (i + 1),
      color := "#" ++ toString (i + 1), condition := 50, basePace := 12 }

/-! ### Infrastructure lemmas -/

theorem speed_ge (horse : Horse) (e : RoundEntry) (d : ℚ) (rng : RandomSource) (k : ℕ) :
    MINIMUM_SPEED_MPS ≤ (calculateSpeedMetersPerSecond horse e d rng k).1 :=
  le_max_left _ _

theorem stepEntry_horseId (horse : Horse) (d dS el dMs : ℚ) (rng : RandomSource)
    (k : ℕ) (e : RoundEntry) :
    ((stepEntry horse d dS el dMs rng k e).1).horseId = e.horseId := rfl

theorem stepEntry_lane (horse : Horse) (d dS el dMs : ℚ) (rng : RandomSource)
    (k : ℕ) (e : RoundEntry) :
    ((stepEntry horse d dS el dMs rng k e).1).lane = e.lane := rfl

theorem stepEntry_distanceCovered (horse : Horse) (d dS el dMs : ℚ) (rng : RandomSource)
    (k : ℕ) (e : RoundEntry) :
    ((stepEntry horse d dS el dMs rng k e).1).distanceCovered
      = min d (e.distanceCovered + (calculateSpeedMetersPerSecond horse e d rng k).1 * dS) := rfl

theorem stepEntry_progress (horse : Horse) (d dS el dMs : ℚ) (rng : RandomSource)
    (k : ℕ) (e : RoundEntry) :
    ((stepEntry horse d dS el dMs rng k e).1).progress
      = min 1 (((stepEntry horse d dS el dMs rng k e).1).distanceCovered / d) := rfl

theorem stepEntry_lastSpeed (horse : Horse) (d dS el dMs : ℚ) (rng : RandomSource)
    (k : ℕ) (e : RoundEntry) :
    ((stepEntry horse d dS el dMs rng k e).1).lastSpeed
      = toFixed2 (calculateSpeedMetersPerSecond horse e d rng k).1 := rfl

theorem stepEntry_bestSpeed (horse : Horse) (d dS el dMs : ℚ) (rng : RandomSource)
    (k : ℕ) (e : RoundEntry) :
    ((stepEntry horse d dS el dMs rng k e).1).bestSpeed
      = max e.bestSpeed (toFixed2 (calculateSpeedMetersPerSecond horse e d rng k).1) := rfl

theorem stepEntry_finishTimeMs (horse : Horse) (d dS el dMs : ℚ) (rng : RandomSource)
    (k : ℕ) (e : RoundEntry) :
    ((stepEntry horse d dS el dMs rng k e).1).finishTimeMs
      = (if d ≤ min d (e.distanceCovered + (calculateSpeedMetersPerSecond horse e d rng k).1 * dS)
         then some (toFixed2 (el + dMs -
           (if 0 < (calculateSpeedMetersPerSecond horse e d rng k).1 then
              max 0 (e.distanceCovered + (calculateSpeedMetersPerSecond horse e d rng k).1 * dS - d)
                / (calculateSpeedMetersPerSecond horse e d rng k).1 * MILLISECONDS_IN_SECOND
            else 0)))
         else none) := rfl

theorem stepEntries_nil (hm : HorseMap) (d dS el dMs : ℚ) (rng : RandomSource) (k : ℕ) :
    stepEntries hm d dS el dMs rng [] k = some ([], k) := rfl

theorem stepEntries_cons_finished (hm : HorseMap) (d dS el dMs : ℚ) (rng : RandomSource)
    (k : ℕ) (e : RoundEntry) (rest : List RoundEntry) (hf : e.finishTimeMs.isSome) :
    stepEntries hm d dS el dMs rng (e :: rest) k
      = (stepEntries hm d dS el dMs rng rest k).map fun p => (e :: p.1, p.2) := by
  rw [stepEntries]
  rw [if_pos hf]

theorem stepEntries_cons_missing (hm : HorseMap) (d dS el dMs : ℚ) (rng : RandomSource)
    (k : ℕ) (e : RoundEntry) (rest : List RoundEntry) (hf : ¬ e.finishTimeMs.isSome = true)
    (hlook : hm e.horseId = none) :
    stepEntries hm d dS el dMs rng (e :: rest) k = none := by
  rw [stepEntries]
  rw [if_neg hf, hlook]

theorem stepEntries_cons_unfinished (hm : HorseMap) (d dS el dMs : ℚ) (rng : RandomSource)
    (k : ℕ) (e : RoundEntry) (rest : List RoundEntry) (horse : Horse)
    (hf : ¬ e.finishTimeMs.isSome = true) (hlook : hm e.horseId = some horse) :
    stepEntries hm d dS el dMs rng (e :: rest) k
      = (stepEntries hm d dS el dMs rng rest (stepEntry horse d dS el dMs rng k e).2).map
          fun q => ((stepEntry horse d dS el dMs rng k e).1 :: q.1, q.2) := by
  rw [stepEntries]
  rw [if_neg hf, hlook]

theorem stepEntries_some (hm : HorseMap) (d dS el dMs : ℚ) (rng : RandomSource) :
    ∀ (es : List RoundEntry) (k : ℕ) (es' : List RoundEntry) (k' : ℕ),
      stepEntries hm d dS el dMs rng es k = some (es', k') →
      es'.length = es.length ∧
      ∀ i (hi : i < es.length) (hi' : i < es'.length),
        EntryEvolves hm d dS el dMs rng (es.get ⟨i, hi⟩) (es'.get ⟨i, hi'⟩) := by
  intro es
  induction es with
  | nil =>
    intro k es' k' h
    rw [stepEntries_nil] at h
    simp only [Option.some.injEq, Prod.mk.injEq] at h
    refine ⟨by simp [← h.1], ?_⟩
    intro i hi
    simp at hi
  | cons e rest ih =>
    intro k es' k' h
    by_cases hf : e.finishTimeMs.isSome
    · rw [stepEntries_cons_finished hm d dS el dMs rng k e rest hf] at h
      cases hrec : stepEntries hm d dS el dMs rng rest k with
      | none => rw [hrec] at h; simp at h
      | some p =>
        rw [hrec, Option.map_some'] at h
        simp only [Option.some.injEq, Prod.mk.injEq] at h
        obtain ⟨hlen, hpt⟩ := ih k p.1 p.2 hrec
        rw [← h.1]
        refine ⟨by simp [hlen], ?_⟩
        intro i hi hi'
        match i with
        | 0 =>
          exact ⟨fun _ => rfl,
            fun hnone => absurd (show e.finishTimeMs = none from hnone)
              (Option.ne_none_iff_isSome.mpr hf)⟩
        | Nat.succ j =>
          exact hpt j (Nat.lt_of_succ_lt_succ hi) (Nat.lt_of_succ_lt_succ hi')
    · cases hlook : hm e.horseId with
      | none => rw [stepEntries_cons_missing hm d dS el dMs rng k e rest hf hlook] at h; simp at h
      | some horse =>
        rw [stepEntries_cons_unfinished hm d dS el dMs rng k e rest horse hf hlook] at h
        cases hrec : stepEntries hm d dS el dMs rng rest
            (stepEntry horse d dS el dMs rng k e).2 with
        | none => rw [hrec] at h; simp at h
        | some p =>
          rw [hrec, Option.map_some'] at h
          simp only [Option.some.injEq, Prod.mk.injEq] at h
          obtain ⟨hlen, hpt⟩ := ih _ p.1 p.2 hrec
          rw [← h.1]
          refine ⟨by simp [hlen], ?_⟩
          intro i hi hi'
          match i with
          | 0 =>
            refine ⟨fun hne => ?_, fun _ => ⟨horse, k, hlook, rfl⟩⟩
            exact absurd (Option.ne_none_iff_isSome.mp hne) (by simpa using hf)
          | Nat.succ j =>
            exact hpt j (Nat.lt_of_succ_lt_succ hi) (Nat.lt_of_succ_lt_succ hi')

theorem stepEntries_isSome (hm : HorseMap) (d dS el dMs : ℚ) (rng : RandomSource) :
    ∀ (es : List RoundEntry) (k : ℕ),
      (∀ e ∈ es, e.finishTimeMs = none → (hm e.horseId).isSome) →
      (stepEntries hm d dS el dMs rng es k).isSome := by
  intro es
  induction es with
  | nil => intro k _; rw [stepEntries_nil]; simp
  | cons e rest ih =>
    intro k hcov
    by_cases hf : e.finishTimeMs.isSome
    · rw [stepEntries_cons_finished hm d dS el dMs rng k e rest hf]
      have := ih k fun x hx => hcov x (List.mem_cons_of_mem _ hx)
      cases hrec : stepEntries hm d dS el dMs rng rest k with
      | none => rw [hrec] at this; simp at this
      | some p => simp
    · have hnone : e.finishTimeMs = none := Option.not_isSome_iff_eq_none.mp hf
      cases hlook : hm e.horseId with
      | none =>
        have := hcov e (List.mem_cons_self ..) hnone
        rw [hlook] at this; simp at this
      | some horse =>
        rw [stepEntries_cons_unfinished hm d dS el dMs rng k e rest horse hf hlook]
        have := ih (stepEntry horse d dS el dMs rng k e).2
          fun x hx => hcov x (List.mem_cons_of_mem _ hx)
        cases hrec : stepEntries hm d dS el dMs rng rest
            (stepEntry horse d dS el dMs rng k e).2 with
        | none => rw [hrec] at this; simp at this
        | some p => simp

theorem stepRound_noop (s : RoundState) (dt : ℚ) (hm : HorseMap) (rng : RandomSource)
    (k : ℕ) (h : s.complete = true ∨ dt ≤ 0) :
    stepRound s dt hm rng k = some (s, k) := by
  unfold stepRound
  rw [if_pos h]

theorem stepRound_cases (s : RoundState) (dt : ℚ) (hm : HorseMap) (rng : RandomSource)
    (k : ℕ) (s' : RoundState) (k' : ℕ) (h : stepRound s dt hm rng k = some (s', k')) :
    ((s.complete = true ∨ dt ≤ 0) ∧ s' = s ∧ k' = k) ∨
    (s.complete = false ∧ 0 < dt ∧ s'.roundId = s.roundId ∧ s'.distance = s.distance ∧
     s'.elapsedMs = toFixed2 (s.elapsedMs + dt) ∧
     s'.complete = (s'.entries.all fun e => e.finishTimeMs.isSome) ∧
     s'.entries.length = s.entries.length ∧
     ∀ i (hi : i < s.entries.length) (hi' : i < s'.entries.length),
       EntryEvolves hm s.distance (dt / MILLISECONDS_IN_SECOND) s.elapsedMs dt rng
         (s.entries.get ⟨i, hi⟩) (s'.entries.get ⟨i, hi'⟩)) := by
  unfold stepRound at h
  by_cases hcond : s.complete = true ∨ dt ≤ 0
  · rw [if_pos hcond] at h
    left
    simp only [Option.some.injEq, Prod.mk.injEq] at h
    exact ⟨hcond, h.1.symm, h.2.symm⟩
  · rw [if_neg hcond] at h
    push_neg at hcond
    right
    cases hrec : stepEntries hm s.distance (dt / MILLISECONDS_IN_SECOND) s.elapsedMs dt rng
        s.entries k with
    | none => rw [hrec] at h; simp at h
    | some p =>
      rw [hrec, Option.map_some'] at h
      simp only [Option.some.injEq, Prod.mk.injEq] at h
      obtain ⟨hlen, hpt⟩ := stepEntries_some hm _ _ _ _ rng s.entries k p.1 p.2 hrec
      obtain ⟨hs, hk⟩ := h
      subst hs
      exact ⟨by simpa using hcond.1, hcond.2, rfl, rfl, rfl, rfl, hlen,
        fun i hi hi' => hpt i hi hi'⟩

theorem EntryEvolves.horseId_eq {hm : HorseMap} {d dS el dMs : ℚ} {rng : RandomSource}
    {e e' : RoundEntry} (h : EntryEvolves hm d dS el dMs rng e e') :
    e'.horseId = e.horseId := by
  cases hfin : e.finishTimeMs with
  | none =>
    obtain ⟨horse, k, _, he'⟩ := h.2 hfin
    rw [he', stepEntry_horseId]
  | some t => rw [h.1 (by simp [hfin])]

theorem EntryEvolves.lane_eq {hm : HorseMap} {d dS el dMs : ℚ} {rng : RandomSource}
    {e e' : RoundEntry} (h : EntryEvolves hm d dS el dMs rng e e') :
    e'.lane = e.lane := by
  cases hfin : e.finishTimeMs with
  | none =>
    obtain ⟨horse, k, _, he'⟩ := h.2 hfin
    rw [he', stepEntry_lane]
  | some t => rw [h.1 (by simp [hfin])]

theorem EntryEvolves.bestSpeed_le {hm : HorseMap} {d dS el dMs : ℚ} {rng : RandomSource}
    {e e' : RoundEntry} (h : EntryEvolves hm d dS el dMs rng e e') :
    e.bestSpeed ≤ e'.bestSpeed := by
  cases hfin : e.finishTimeMs with
  | none =>
    obtain ⟨horse, k, _, he'⟩ := h.2 hfin
    rw [he', stepEntry_bestSpeed]
    exact le_max_left _ _
  | some t => rw [h.1 (by simp [hfin])]

theorem EntryEvolves.finish_mono {hm : HorseMap} {d dS el dMs : ℚ} {rng : RandomSource}
    {e e' : RoundEntry} (h : EntryEvolves hm d dS el dMs rng e e')
    (hfin' : e'.finishTimeMs = none) : e.finishTimeMs = none := by
  by_contra hne
  rw [h.1 hne] at hfin'
  exact hne hfin'

theorem minimum_speed_pos : (0 : ℚ) < MINIMUM_SPEED_MPS := by norm_num [MINIMUM_SPEED_MPS]

theorem stepEntry_inv_mono (horse : Horse) (d dS el dMs : ℚ) (rng : RandomSource) (k : ℕ)
    (e : RoundEntry) (hd : 0 < d) (hdS : 0 < dS) (hinv : EntryInv d e) :
    EntryInv d ((stepEntry horse d dS el dMs rng k e).1) ∧
    e.distanceCovered ≤ ((stepEntry horse d dS el dMs rng k e).1).distanceCovered ∧
    e.progress ≤ ((stepEntry horse d dS el dMs rng k e).1).progress := by
  obtain ⟨h0, hle, hprog⟩ := hinv
  have hsp := speed_ge horse e d rng k
  have hsp0 : 0 < (calculateSpeedMetersPerSecond horse e d rng k).1 :=
    lt_of_lt_of_le minimum_speed_pos hsp
  have hdelta : 0 < (calculateSpeedMetersPerSecond horse e d rng k).1 * dS := mul_pos hsp0 hdS
  have hcov := stepEntry_distanceCovered horse d dS el dMs rng k e
  have hmono : e.distanceCovered ≤ ((stepEntry horse d dS el dMs rng k e).1).distanceCovered := by
    rw [hcov]
    exact le_min hle (by linarith)
  have h0' : 0 ≤ ((stepEntry horse d dS el dMs rng k e).1).distanceCovered :=
    le_trans h0 hmono
  have hle' : ((stepEntry horse d dS el dMs rng k e).1).distanceCovered ≤ d := by
    rw [hcov]
    exact min_le_left _ _
  have hprog' := stepEntry_progress horse d dS el dMs rng k e
  refine ⟨⟨h0', hle', hprog'⟩, hmono, ?_⟩
  rw [hprog, hprog']
  refine min_le_min le_rfl ?_
  gcongr

theorem mkEntries_cons_none (hm : HorseMap) (hid : String) (rest : List String) (idx : ℕ)
    (hlook : hm hid = none) : mkEntries hm (hid :: rest) idx = none := by
  rw [mkEntries, hlook]

theorem mkEntries_cons_some (hm : HorseMap) (hid : String) (rest : List String) (idx : ℕ)
    (horse : Horse) (hlook : hm hid = some horse) :
    mkEntries hm (hid :: rest) idx
      = (mkEntries hm rest (idx + 1)).map fun es =>
          ({ horseId := hid, lane := idx + 1, distanceCovered := 0, progress := 0,
             lastSpeed := 0, bestSpeed := 0, finishTimeMs := none } : RoundEntry) :: es := by
  rw [mkEntries, hlook]

theorem mkEntries_some_spec (hm : HorseMap) :
    ∀ (hids : List String) (idx : ℕ) (es : List RoundEntry),
      mkEntries hm hids idx = some es →
      es.map (·.horseId) = hids ∧
      es.map (·.lane) = List.range' (idx + 1) hids.length ∧
      ∀ e ∈ es, e.distanceCovered = 0 ∧ e.progress = 0 ∧ e.lastSpeed = 0 ∧
        e.bestSpeed = 0 ∧ e.finishTimeMs = none := by
  intro hids
  induction hids with
  | nil =>
    intro idx es h
    simp only [mkEntries, Option.some.injEq] at h
    subst h
    simp
  | cons hid rest ih =>
    intro idx es h
    cases hlook : hm hid with
    | none => rw [mkEntries_cons_none hm hid rest idx hlook] at h; simp at h
    | some horse =>
      rw [mkEntries_cons_some hm hid rest idx horse hlook] at h
      cases hrec : mkEntries hm rest (idx + 1) with
      | none => rw [hrec] at h; simp at h
      | some tailEs =>
        rw [hrec, Option.map_some'] at h
        simp only [Option.some.injEq] at h
        subst h
        obtain ⟨h1, h2, h3⟩ := ih (idx + 1) tailEs hrec
        refine ⟨by simp [h1], ?_, ?_⟩
        · simp only [List.map_cons, List.length_cons, List.range'_succ]
          rw [h2]
        · intro e he
          rcases List.mem_cons.mp he with rfl | hmem
          · exact ⟨rfl, rfl, rfl, rfl, rfl⟩
          · exact h3 e hmem

theorem mkEntries_isSome (hm : HorseMap) :
    ∀ (hids : List String) (idx : ℕ),
      (∀ hid ∈ hids, (hm hid).isSome) → (mkEntries hm hids idx).isSome := by
  intro hids
  induction hids with
  | nil => intro idx _; simp [mkEntries]
  | cons hid rest ih =>
    intro idx hcov
    cases hlook : hm hid with
    | none =>
      have := hcov hid (List.mem_cons_self ..)
      rw [hlook] at this
      simp at this
    | some horse =>
      rw [mkEntries_cons_some hm hid rest idx horse hlook]
      have := ih (idx + 1) fun x hx => hcov x (List.mem_cons_of_mem _ hx)
      cases hrec : mkEntries hm rest (idx + 1) with
      | none => rw [hrec] at this; simp at this
      | some tailEs => simp

theorem createRoundState_spec (round : RaceRoundDefinition) (hm : HorseMap) (s : RoundState)
    (h : createRoundState round hm = some s) :
    s.roundId = round.id ∧ s.distance = round.distance ∧ s.elapsedMs = 0 ∧
    s.complete = false ∧ s.entries.map (·.horseId) = round.horseIds ∧
    s.entries.map (·.lane) = List.range' 1 s.entries.length ∧
    ∀ e ∈ s.entries, e.distanceCovered = 0 ∧ e.progress = 0 ∧ e.lastSpeed = 0 ∧
      e.bestSpeed = 0 ∧ e.finishTimeMs = none := by
  unfold createRoundState at h
  cases hmk : mkEntries hm round.horseIds 0 with
  | none => rw [hmk] at h; simp at h
  | some es =>
    rw [hmk, Option.map_some'] at h
    simp only [Option.some.injEq] at h
    subst h
    obtain ⟨h1, h2, h3⟩ := mkEntries_some_spec hm round.horseIds 0 es hmk
    have hlen : es.length = round.horseIds.length := by
      rw [← h1, List.length_map]
    exact ⟨rfl, rfl, rfl, rfl, h1, by simpa [hlen] using h2, h3⟩

theorem createRoundState_isSome (round : RaceRoundDefinition) (hm : HorseMap)
    (hcov : ∀ hid ∈ round.horseIds, (hm hid).isSome) :
    (createRoundState round hm).isSome := by
  unfold createRoundState
  have := mkEntries_isSome hm round.horseIds 0 hcov
  cases hmk : mkEntries hm round.horseIds 0 with
  | none => rw [hmk] at this; simp at this
  | some es => simp

theorem map_get_eq {α β : Type _} (f : α → β) (l l' : List α) (hlen : l'.length = l.length)
    (hpt : ∀ i (hi : i < l.length) (hi' : i < l'.length),
      f (l'.get ⟨i, hi'⟩) = f (l.get ⟨i, hi⟩)) :
    l'.map f = l.map f := by
  apply List.ext_getElem (by simp [hlen])
  intro i h1 h2
  simp only [List.getElem_map]
  have h3 : i < l.length := by simpa using h2
  have h4 : i < l'.length := by simpa using h1
  have := hpt i h3 h4
  simpa [List.get_eq_getElem] using this

theorem Reach.state_spec {round : RaceRoundDefinition} {hm : HorseMap} {s : RoundState}
    (h : Reach round hm s) :
    s.roundId = round.id ∧ s.distance = round.distance ∧
    s.entries.map (·.horseId) = round.horseIds ∧
    s.entries.map (·.lane) = List.range' 1 s.entries.length := by
  induction h with
  | base s hcr =>
    obtain ⟨ha, hb, _, _, hc, hd, _⟩ := createRoundState_spec round hm s hcr
    exact ⟨ha, hb, hc, hd⟩
  | step s dt rng k s' k' hr hstep ih =>
    rcases stepRound_cases s dt hm rng k s' k' hstep with ⟨_, rfl, _⟩ |
      ⟨_, _, hrid, hdist, _, _, hlen, hpt⟩
    · exact ih
    · have hids : s'.entries.map (·.horseId) = s.entries.map (·.horseId) :=
        map_get_eq _ _ _ hlen fun i hi hi' => (hpt i hi hi').horseId_eq
      have hlanes : s'.entries.map (·.lane) = s.entries.map (·.lane) :=
        map_get_eq _ _ _ hlen fun i hi hi' => (hpt i hi hi').lane_eq
      exact ⟨hrid.trans ih.1, hdist.trans ih.2.1, hids.trans ih.2.2.1,
        by rw [hlanes, hlen, ih.2.2.2]⟩

theorem Reach.entryInv {round : RaceRoundDefinition} {hm : HorseMap} {s : RoundState}
    (hd : 0 < round.distance) (h : Reach round hm s) :
    ∀ i (hi : i < s.entries.length), EntryInv round.distance (s.entries.get ⟨i, hi⟩) := by
  induction h with
  | base s hcr =>
    intro i hi
    obtain ⟨_, _, _, _, _, _, hfresh⟩ := createRoundState_spec round hm s hcr
    obtain ⟨hc, hp, _, _, _⟩ := hfresh _ (List.get_mem ..)
    exact ⟨by rw [hc], by rw [hc]; exact hd.le, by rw [hc, hp]; norm_num⟩
  | step s dt rng k s' k' hr hstep ih =>
    rcases stepRound_cases s dt hm rng k s' k' hstep with ⟨_, rfl, _⟩ |
      ⟨_, hdt, _, hdist, _, _, hlen, hpt⟩
    · exact ih
    · intro i hi'
      have hi : i < s.entries.length := hlen ▸ hi'
      have hev := hpt i hi hi'
      have hsd : s.distance = round.distance := (Reach.state_spec hr).2.1
      cases hfin : (s.entries.get ⟨i, hi⟩).finishTimeMs with
      | some t =>
        rw [hev.1 fun hnone => by rw [hfin] at hnone; simp at hnone]
        exact ih i hi
      | none =>
        obtain ⟨horse, kk, _, he'⟩ := hev.2 hfin
        rw [he']
        have hdS : 0 < dt / MILLISECONDS_IN_SECOND := by
          have : (0:ℚ) < MILLISECONDS_IN_SECOND := by norm_num [MILLISECONDS_IN_SECOND]
          positivity
        have := stepEntry_inv_mono horse s.distance (dt / MILLISECONDS_IN_SECOND)
          s.elapsedMs dt rng kk (s.entries.get ⟨i, hi⟩) (hsd ▸ hd) hdS
          (hsd ▸ ih i hi)
        exact hsd ▸ this.1

theorem stepRound_isSome (s : RoundState) (dt : ℚ) (hm : HorseMap) (rng : RandomSource)
    (k : ℕ) (hcov : ∀ e ∈ s.entries, e.finishTimeMs = none → (hm e.horseId).isSome) :
    (stepRound s dt hm rng k).isSome := by
  unfold stepRound
  by_cases hcond : s.complete = true ∨ dt ≤ 0
  · rw [if_pos hcond]; simp
  · rw [if_neg hcond]
    have := stepEntries_isSome hm s.distance (dt / MILLISECONDS_IN_SECOND) s.elapsedMs dt rng
      s.entries k hcov
    cases hrec : stepEntries hm s.distance (dt / MILLISECONDS_IN_SECOND) s.elapsedMs dt rng
        s.entries k with
    | none => rw [hrec] at this; simp at this
    | some p => simp

theorem stepRound_effective (s : RoundState) (dt : ℚ) (hm : HorseMap) (rng : RandomSource)
    (k : ℕ) (s' : RoundState) (k' : ℕ) (hc : s.complete = false) (hdt : 0 < dt)
    (h : stepRound s dt hm rng k = some (s', k')) :
    s'.roundId = s.roundId ∧ s'.distance = s.distance ∧
    s'.elapsedMs = toFixed2 (s.elapsedMs + dt) ∧
    s'.complete = (s'.entries.all fun e => e.finishTimeMs.isSome) ∧
    s'.entries.length = s.entries.length ∧
    ∀ i (hi : i < s.entries.length) (hi' : i < s'.entries.length),
      EntryEvolves hm s.distance (dt / MILLISECONDS_IN_SECOND) s.elapsedMs dt rng
        (s.entries.get ⟨i, hi⟩) (s'.entries.get ⟨i, hi'⟩) := by
  rcases stepRound_cases s dt hm rng k s' k' h with ⟨hcond, _, _⟩ | hspec
  · rcases hcond with hcl | hle
    · rw [hc] at hcl; cases hcl
    · exact absurd hle (not_le.mpr hdt)
  · exact ⟨hspec.2.2.1, hspec.2.2.2.1, hspec.2.2.2.2.1, hspec.2.2.2.2.2.1,
      hspec.2.2.2.2.2.2.1, hspec.2.2.2.2.2.2.2⟩

/-- C1: for every round state created by `createRoundState` for a round of
positive distance and advanced by any sequence of `stepRound` calls, every
entry's `distanceCovered` lies in `[0, round distance]` and its `progress` lies
in `[0, 1]`; and across any further `stepRound` call, each entry's
`distanceCovered`, `progress` and `bestSpeed` are non-decreasing. -/
theorem c1_entry_bounds_and_monotonicity
    (round : RaceRoundDefinition) (hm : HorseMap) (s : RoundState)
    (hd : 0 < round.distance) (hs : Reach round hm s) :
    (∀ e ∈ s.entries,
       0 ≤ e.distanceCovered ∧ e.distanceCovered ≤ round.distance ∧
       0 ≤ e.progress ∧ e.progress ≤ 1) ∧
    (∀ (dt : ℚ) (rng : RandomSource) (k : ℕ) (s' : RoundState) (k' : ℕ),
       stepRound s dt hm rng k = some (s', k') →
       s'.entries.length = s.entries.length ∧
       ∀ i (hi : i < s.entries.length) (hi' : i < s'.entries.length),
         (s.entries.get ⟨i, hi⟩).distanceCovered ≤ (s'.entries.get ⟨i, hi'⟩).distanceCovered ∧
         (s.entries.get ⟨i, hi⟩).progress ≤ (s'.entries.get ⟨i, hi'⟩).progress ∧
         (s.entries.get ⟨i, hi⟩).bestSpeed ≤ (s'.entries.get ⟨i, hi'⟩).bestSpeed) := by
  have hsd : s.distance = round.distance := (Reach.state_spec hs).2.1
  constructor
  · intro e he
    obtain ⟨⟨i, hi⟩, rfl⟩ := List.mem_iff_get.mp he
    obtain ⟨h0, hle, hprog⟩ := Reach.entryInv hd hs i hi
    refine ⟨h0, hle, ?_, ?_⟩
    · rw [hprog]
      exact le_min (by norm_num) (div_nonneg h0 hd.le)
    · rw [hprog]
      exact min_le_left _ _
  · intro dt rng k s' k' hstep
    rcases stepRound_cases s dt hm rng k s' k' hstep with ⟨_, rfl, _⟩ | hspec
    · exact ⟨rfl, fun i hi hi' => ⟨le_refl _, le_refl _, le_refl _⟩⟩
    · obtain ⟨_, hdt, _, _, _, _, hlen, hpt⟩ := hspec
      refine ⟨hlen, fun i hi hi' => ?_⟩
      have hev := hpt i hi hi'
      refine ⟨?_, ?_, hev.bestSpeed_le⟩ <;>
      · cases hfin : (s.entries.get ⟨i, hi⟩).finishTimeMs with
        | some t =>
          rw [hev.1 fun hnone => by rw [hfin] at hnone; simp at hnone]
        | none =>
          obtain ⟨horse, kk, _, he'⟩ := hev.2 hfin
          rw [he']
          have hdS : 0 < dt / MILLISECONDS_IN_SECOND := by
            have : (0:ℚ) < MILLISECONDS_IN_SECOND := by norm_num [MILLISECONDS_IN_SECOND]
            positivity
          have hmono := stepEntry_inv_mono horse s.distance (dt / MILLISECONDS_IN_SECOND)
            s.elapsedMs dt rng kk (s.entries.get ⟨i, hi⟩) (hsd ▸ hd) hdS
            (hsd ▸ Reach.entryInv hd hs i hi)
          first
          | exact hmono.2.1
          | exact hmono.2.2

/-- C1 witness: the theorem instantiated at the concrete one-horse round
`wDef`/`wMap` and its freshly created state `wState`. -/
theorem c1_entry_bounds_and_monotonicity_witness :
    (∀ e ∈ wState.entries,
       0 ≤ e.distanceCovered ∧ e.distanceCovered ≤ wDef.distance ∧
       0 ≤ e.progress ∧ e.progress ≤ 1) ∧
    (∀ (dt : ℚ) (rng : RandomSource) (k : ℕ) (s' : RoundState) (k' : ℕ),
       stepRound wState dt wMap rng k = some (s', k') →
       s'.entries.length = wState.entries.length ∧
       ∀ i (hi : i < wState.entries.length) (hi' : i < s'.entries.length),
         (wState.entries.get ⟨i, hi⟩).distanceCovered ≤ (s'.entries.get ⟨i, hi'⟩).distanceCovered ∧
         (wState.entries.get ⟨i, hi⟩).progress ≤ (s'.entries.get ⟨i, hi'⟩).progress ∧
         (wState.entries.get ⟨i, hi⟩).bestSpeed ≤ (s'.entries.get ⟨i, hi'⟩).bestSpeed) :=
  c1_entry_bounds_and_monotonicity wDef wMap wState (by norm_num [wDef])
    (Reach.base wState (by decide))

/-- C2 counterexample: for a round definition with an empty competitor list,
the freshly created state has `complete = false` although every entry
(vacuously) has a finish time, and `isRoundComplete` returns `true ≠ complete`. -/
theorem c2_counterexample :
    ((createRoundState emptyDef wMap).map fun s => (s.complete, isRoundComplete s))
      = some (false, true) ∧ (false : Bool) ≠ true := ⟨by decide, by decide⟩

/-- C2 (amended): for every reachable state of a round with at least one
assigned competitor, the `complete` flag is `true` iff every entry has a
non-null finish time, and `isRoundComplete` returns exactly the flag's value.
(The amendment excludes the degenerate zero-entry round, whose freshly created
state has `complete = false` while the all-finished condition holds vacuously.) -/
theorem c2_complete_iff_all_finished
    (round : RaceRoundDefinition) (hm : HorseMap) (s : RoundState)
    (hne : round.horseIds ≠ []) (hs : Reach round hm s) :
    (s.complete = true ↔ ∀ e ∈ s.entries, e.finishTimeMs ≠ none) ∧
    isRoundComplete s = s.complete := by
  induction hs with
  | base s hcr =>
    obtain ⟨_, _, _, hc, hids, _, hfresh⟩ := createRoundState_spec round hm s hcr
    have hnil : s.entries ≠ [] := by
      intro hnil
      apply hne
      rw [← hids, hnil]
      rfl
    obtain ⟨e0, he0⟩ := List.exists_mem_of_ne_nil _ hnil
    constructor
    · rw [hc]
      constructor
      · intro hfalse; simp at hfalse
      · intro hall
        exact absurd ((hfresh e0 he0).2.2.2.2) (hall e0 he0)
    · unfold isRoundComplete
      rw [hc]
      refine List.all_eq_false.mpr ⟨e0, he0, ?_⟩
      simp [(hfresh e0 he0).2.2.2.2]
  | step s dt rng k s' k' hr hstep ih =>
    rcases stepRound_cases s dt hm rng k s' k' hstep with ⟨_, rfl, _⟩ | hspec
    · exact ih
    · obtain ⟨_, _, _, _, _, hcomp, _, _⟩ := hspec
      constructor
      · rw [hcomp, List.all_eq_true]
        constructor
        · intro h e he
          exact Option.ne_none_iff_isSome.mpr (h e he)
        · intro h e he
          exact Option.ne_none_iff_isSome.mp (h e he)
      · unfold isRoundComplete
        rw [hcomp]

/-- C2 witness: the amended theorem instantiated at the concrete one-horse
round `wDef`/`wMap` and its freshly created state `wState`. -/
theorem c2_complete_iff_all_finished_witness :
    wDef.horseIds ≠ [] ∧
    ((wState.complete = true ↔ ∀ e ∈ wState.entries, e.finishTimeMs ≠ none) ∧
     isRoundComplete wState = wState.complete) :=
  ⟨by decide, c2_complete_iff_all_finished wDef wMap wState (by decide)
    (Reach.base wState (by decide))⟩

/-- C4 counterexample: stepping a 1 m round (horse `zHorse`, zero pace, so the
floored speed is exactly 4.2 m/s) by 1000 ms records the finish time
`238.1` (the interpolated instant rounded to two decimals by `toFixed(2)`),
whereas the claim's un-rounded formula gives `5000/21 = 238.095238... ≠ 238.1`. -/
theorem c4_counterexample :
    (calculateSpeedMetersPerSecond zHorse zEntry zState.distance rng0 0).1 = 21/5 ∧
    ((stepRound zState 1000 zMap rng0 0).map fun p => p.1.entries.map (·.finishTimeMs))
      = some [some (2381/10)] ∧
    zState.elapsedMs + 1000 -
        (zEntry.distanceCovered + (21/5) * (1000 / MILLISECONDS_IN_SECOND) - zState.distance)
          / (21/5) * MILLISECONDS_IN_SECOND = 5000/21 ∧
    (2381/10 : ℚ) ≠ 5000/21 := by
  refine ⟨?_, ?_, by norm_num [zState, zEntry, MILLISECONDS_IN_SECOND], by norm_num⟩
  · simp [calculateSpeedMetersPerSecond, zHorse, zEntry, zState, rng0, CONDITION_MULTIPLIER_BASE,
      CONDITION_MULTIPLIER_SCALE, RANDOM_PULSE_BASE, RANDOM_PULSE_RANGE, FATIGUE_MAX_PENALTY,
      LATE_BOOST_TRIGGER_PROGRESS, LATE_BOOST_BASE, LATE_BOOST_RANGE, MINIMUM_SPEED_MPS,
      max_def, min_def]
    norm_num
  · have hstep : stepRound zState 1000 zMap rng0 0 = some (zStateAfter, 1) := by
      simp [stepRound, stepEntries, stepEntry, zState, zStateAfter, zMap, zHorse, zEntry, rng0,
        calculateSpeedMetersPerSecond, CONDITION_MULTIPLIER_BASE,
        CONDITION_MULTIPLIER_SCALE, RANDOM_PULSE_BASE, RANDOM_PULSE_RANGE, FATIGUE_MAX_PENALTY,
        LATE_BOOST_TRIGGER_PROGRESS, LATE_BOOST_BASE, LATE_BOOST_RANGE, MINIMUM_SPEED_MPS,
        MILLISECONDS_IN_SECOND, toFixed2, max_def, min_def]
      norm_num
    rw [hstep]
    simp [zStateAfter]

/-- C4 (amended): in an effective `stepRound` call, every already-finished
entry is left completely unchanged, and every unfinished entry whose tentative
distance (current distance plus tick speed times the time increment in seconds)
reaches the round distance gets its finish time set to the round's elapsed time
plus the tick increment minus the overshoot duration (overshoot distance
converted to time at the tick speed), rounded to two decimals by `toFixed(2)`;
an unfinished entry whose tentative distance stays short gets no finish time. -/
theorem c4_finish_time_interpolation
    (s : RoundState) (dt : ℚ) (hm : HorseMap) (rng : RandomSource) (k : ℕ)
    (s' : RoundState) (k' : ℕ) (hc : s.complete = false) (hdt : 0 < dt)
    (hstep : stepRound s dt hm rng k = some (s', k')) :
    s'.entries.length = s.entries.length ∧
    ∀ i (hi : i < s.entries.length) (hi' : i < s'.entries.length),
      ((s.entries.get ⟨i, hi⟩).finishTimeMs ≠ none →
        s'.entries.get ⟨i, hi'⟩ = s.entries.get ⟨i, hi⟩) ∧
      ((s.entries.get ⟨i, hi⟩).finishTimeMs = none →
        ∃ horse kk speed, hm (s.entries.get ⟨i, hi⟩).horseId = some horse ∧
          speed = (calculateSpeedMetersPerSecond horse (s.entries.get ⟨i, hi⟩)
            s.distance rng kk).1 ∧
          (s.distance ≤ (s.entries.get ⟨i, hi⟩).distanceCovered +
              speed * (dt / MILLISECONDS_IN_SECOND) →
            (s'.entries.get ⟨i, hi'⟩).finishTimeMs =
              some (toFixed2 (s.elapsedMs + dt -
                ((s.entries.get ⟨i, hi⟩).distanceCovered +
                   speed * (dt / MILLISECONDS_IN_SECOND) - s.distance)
                  / speed * MILLISECONDS_IN_SECOND))) ∧
          ((s.entries.get ⟨i, hi⟩).distanceCovered +
              speed * (dt / MILLISECONDS_IN_SECOND) < s.distance →
            (s'.entries.get ⟨i, hi'⟩).finishTimeMs = none)) := by
  obtain ⟨_, _, _, _, hlen, hpt⟩ := stepRound_effective s dt hm rng k s' k' hc hdt hstep
  refine ⟨hlen, fun i hi hi' => ?_⟩
  have hev := hpt i hi hi'
  refine ⟨hev.1, fun hfin => ?_⟩
  obtain ⟨horse, kk, hlook, he'⟩ := hev.2 hfin
  set e := s.entries.get ⟨i, hi⟩
  set speed := (calculateSpeedMetersPerSecond horse e s.distance rng kk).1 with hspeed
  have hsp0 : 0 < speed := lt_of_lt_of_le minimum_speed_pos (speed_ge horse e s.distance rng kk)
  refine ⟨horse, kk, speed, hlook, rfl, ?_, ?_⟩
  · intro hcross
    rw [he', stepEntry_finishTimeMs]
    rw [if_pos (le_min le_rfl hcross), if_pos hsp0]
    have : max 0 (e.distanceCovered + speed * (dt / MILLISECONDS_IN_SECOND) - s.distance)
        = e.distanceCovered + speed * (dt / MILLISECONDS_IN_SECOND) - s.distance :=
      max_eq_right (by linarith)
    rw [this]
  · intro hshort
    rw [he', stepEntry_finishTimeMs]
    rw [if_neg]
    intro hcontra
    have h1 : min s.distance (e.distanceCovered + speed * (dt / MILLISECONDS_IN_SECOND))
        ≤ e.distanceCovered + speed * (dt / MILLISECONDS_IN_SECOND) := min_le_right _ _
    linarith

/-- C4 witness: the amended theorem instantiated at the concrete 1 m round
state `zState` stepped by 1000 ms with the all-zero RNG. -/
theorem c4_finish_time_interpolation_witness :
    zStateAfter.entries.length = zState.entries.length ∧
    ∀ i (hi : i < zState.entries.length) (hi' : i < zStateAfter.entries.length),
      ((zState.entries.get ⟨i, hi⟩).finishTimeMs ≠ none →
        zStateAfter.entries.get ⟨i, hi'⟩ = zState.entries.get ⟨i, hi⟩) ∧
      ((zState.entries.get ⟨i, hi⟩).finishTimeMs = none →
        ∃ horse kk speed, zMap (zState.entries.get ⟨i, hi⟩).horseId = some horse ∧
          speed = (calculateSpeedMetersPerSecond horse (zState.entries.get ⟨i, hi⟩)
            zState.distance rng0 kk).1 ∧
          (zState.distance ≤ (zState.entries.get ⟨i, hi⟩).distanceCovered +
              speed * (1000 / MILLISECONDS_IN_SECOND) →
            (zStateAfter.entries.get ⟨i, hi'⟩).finishTimeMs =
              some (toFixed2 (zState.elapsedMs + 1000 -
                ((zState.entries.get ⟨i, hi⟩).distanceCovered +
                   speed * (1000 / MILLISECONDS_IN_SECOND) - zState.distance)
                  / speed * MILLISECONDS_IN_SECOND))) ∧
          ((zState.entries.get ⟨i, hi⟩).distanceCovered +
              speed * (1000 / MILLISECONDS_IN_SECOND) < zState.distance →
            (zStateAfter.entries.get ⟨i, hi'⟩).finishTimeMs = none)) :=
  c4_finish_time_interpolation zState 1000 zMap rng0 0 zStateAfter 1 rfl (by norm_num)
    (by simp [stepRound, stepEntries, stepEntry, zState, zStateAfter, zMap, zHorse, zEntry, rng0,
          calculateSpeedMetersPerSecond, CONDITION_MULTIPLIER_BASE,
          CONDITION_MULTIPLIER_SCALE, RANDOM_PULSE_BASE, RANDOM_PULSE_RANGE, FATIGUE_MAX_PENALTY,
          LATE_BOOST_TRIGGER_PROGRESS, LATE_BOOST_BASE, LATE_BOOST_RANGE, MINIMUM_SPEED_MPS,
          MILLISECONDS_IN_SECOND, toFixed2, max_def, min_def]
        norm_num)

theorem rankLE_iff (a b : RoundEntry) :
    rankLE a b = true ↔
      (timeKey a < timeKey b ∨ (timeKey a = timeKey b ∧
        (b.distanceCovered < a.distanceCovered ∨ (a.distanceCovered = b.distanceCovered ∧
          a.lane ≤ b.lane)))) := by
  unfold rankLE
  by_cases h1 : timeKey a = timeKey b
  · rw [if_neg (by simp [h1])]
    by_cases h2 : a.distanceCovered = b.distanceCovered
    · rw [if_neg (by simp [h2])]
      simp [h1, h2, lt_irrefl]
    · rw [if_pos h2]
      simp [h1, h2, lt_irrefl]
  · rw [if_pos h1]
    simp [h1]

theorem rankBefore_iff (a b : RoundEntry) :
    rankBefore a b = true ↔
      (timeKey a < timeKey b ∨ (timeKey a = timeKey b ∧
        (b.distanceCovered < a.distanceCovered ∨ (a.distanceCovered = b.distanceCovered ∧
          a.lane < b.lane)))) := by
  unfold rankBefore
  by_cases h1 : timeKey a = timeKey b
  · rw [if_neg (by simp [h1])]
    by_cases h2 : a.distanceCovered = b.distanceCovered
    · rw [if_neg (by simp [h2])]
      simp [h1, h2, lt_irrefl]
    · rw [if_pos h2]
      simp [h1, h2, lt_irrefl]
  · rw [if_pos h1]
    simp [h1]

theorem rankLE_trans (a b c : RoundEntry) (hab : rankLE a b = true) (hbc : rankLE b c = true) :
    rankLE a c = true := by
  rw [rankLE_iff] at hab hbc ⊢
  rcases hab with h1 | ⟨h1, h1'⟩ <;> rcases hbc with h2 | ⟨h2, h2'⟩
  · exact Or.inl (lt_trans h1 h2)
  · exact Or.inl (by rw [← h2]; exact h1)
  · exact Or.inl (by rw [h1]; exact h2)
  · refine Or.inr ⟨h1.trans h2, ?_⟩
    rcases h1' with hc1 | ⟨hc1, hl1⟩ <;> rcases h2' with hc2 | ⟨hc2, hl2⟩
    · exact Or.inl (lt_trans hc2 hc1)
    · exact Or.inl (by rw [← hc2]; exact hc1)
    · exact Or.inl (by rw [hc1]; exact hc2)
    · exact Or.inr ⟨hc1.trans hc2, le_trans hl1 hl2⟩

theorem rankLE_total (a b : RoundEntry) : rankLE a b = true ∨ rankLE b a = true := by
  rw [rankLE_iff, rankLE_iff]
  rcases lt_trichotomy (timeKey a) (timeKey b) with h | h | h
  · exact Or.inl (Or.inl h)
  · rcases lt_trichotomy a.distanceCovered b.distanceCovered with h2 | h2 | h2
    · exact Or.inr (Or.inr ⟨h.symm, Or.inl h2⟩)
    · rcases le_total a.lane b.lane with h3 | h3
      · exact Or.inl (Or.inr ⟨h, Or.inr ⟨h2, h3⟩⟩)
      · exact Or.inr (Or.inr ⟨h.symm, Or.inr ⟨h2.symm, h3⟩⟩)
    · exact Or.inl (Or.inr ⟨h, Or.inl h2⟩)
  · exact Or.inr (Or.inl h)

theorem rankBefore_asymm (x y : RoundEntry) (hxy : rankBefore x y = true) :
    rankBefore y x = false := by
  rw [rankBefore_iff] at hxy
  rw [Bool.eq_false_iff, Ne, rankBefore_iff]
  rintro (h2 | ⟨h2, h2'⟩)
  · rcases hxy with h1 | ⟨h1, _⟩
    · exact absurd h2 (lt_asymm h1)
    · exact absurd h1.symm (ne_of_lt h2)
  · rcases hxy with h1 | ⟨h1, h1'⟩
    · exact absurd h1 (by rw [h2]; exact lt_irrefl _)
    · rcases h2' with h3 | ⟨h3, h3'⟩
      · rcases h1' with h4 | ⟨h4, _⟩
        · exact absurd h3 (lt_asymm h4)
        · exact absurd h4 (ne_of_lt h3)
      · rcases h1' with h4 | ⟨h4, h4'⟩
        · exact absurd h4 (by rw [h3]; exact lt_irrefl _)
        · exact absurd h3' (lt_asymm h4')

theorem rankBefore_total_of_lane_ne (a b : RoundEntry) (hl : a.lane ≠ b.lane) :
    rankBefore a b = true ∨ rankBefore b a = true := by
  rw [rankBefore_iff, rankBefore_iff]
  rcases lt_trichotomy (timeKey a) (timeKey b) with h | h | h
  · exact Or.inl (Or.inl h)
  · rcases lt_trichotomy a.distanceCovered b.distanceCovered with h2 | h2 | h2
    · exact Or.inr (Or.inr ⟨h.symm, Or.inl h2⟩)
    · rcases lt_or_gt_of_ne hl with h3 | h3
      · exact Or.inl (Or.inr ⟨h, Or.inr ⟨h2, h3⟩⟩)
      · exact Or.inr (Or.inr ⟨h.symm, Or.inr ⟨h2.symm, h3⟩⟩)
    · exact Or.inl (Or.inr ⟨h, Or.inl h2⟩)
  · exact Or.inr (Or.inl h)

theorem rankBefore_exactly_one (a b : RoundEntry) (hl : a.lane ≠ b.lane) :
    (rankBefore a b = true ∧ rankBefore b a = false) ∨
    (rankBefore a b = false ∧ rankBefore b a = true) := by
  rcases rankBefore_total_of_lane_ne a b hl with h | h
  · exact Or.inl ⟨h, rankBefore_asymm a b h⟩
  · exact Or.inr ⟨rankBefore_asymm b a h, h⟩

/-- C3: for every reachable round state, lanes are pairwise distinct; for any
two distinct entries the comparator puts exactly one strictly ahead of the
other (a strict total order); `getRoundRanking` returns a permutation of the
entries sorted by the comparator; and re-ranking the already-ranked entries
returns them unchanged (so ranking twice from the same state yields identical
output, and the state itself is never modified — the model is pure and the
source sorts a copy `[...entries]`). -/
theorem c3_ranking_strict_total_order
    (round : RaceRoundDefinition) (hm : HorseMap) (s : RoundState) (hs : Reach round hm s) :
    (s.entries.map (·.lane)).Nodup ∧
    (∀ a ∈ s.entries, ∀ b ∈ s.entries, a ≠ b →
      ((rankBefore a b = true ∧ rankBefore b a = false) ∨
       (rankBefore a b = false ∧ rankBefore b a = true))) ∧
    (getRoundRanking s).Perm s.entries ∧
    List.Pairwise (fun a b => rankLE a b = true) (getRoundRanking s) ∧
    getRoundRanking { s with entries := getRoundRanking s } = getRoundRanking s := by
  have hlanes : s.entries.map (·.lane) = List.range' 1 s.entries.length :=
    (Reach.state_spec hs).2.2.2
  have hnodup : (s.entries.map (·.lane)).Nodup := by
    rw [hlanes]
    exact List.nodup_range' _ _
  have hsorted : List.Pairwise (fun a b => rankLE a b = true) (getRoundRanking s) :=
    List.sorted_mergeSort (fun a b c => rankLE_trans a b c)
      (fun a b => by rcases rankLE_total a b with h | h <;> simp [h]) s.entries
  refine ⟨hnodup, ?_, List.mergeSort_perm s.entries rankLE, hsorted, ?_⟩
  · intro a ha b hb hne
    refine rankBefore_exactly_one a b ?_
    intro hleq
    exact hne (List.inj_on_of_nodup_map hnodup ha hb hleq)
  · exact List.mergeSort_of_sorted hsorted

/-- C3 witness: the theorem instantiated at the freshly created one-horse round
state `wState`. -/
theorem c3_ranking_strict_total_order_witness :
    (wState.entries.map (·.lane)).Nodup ∧
    (∀ a ∈ wState.entries, ∀ b ∈ wState.entries, a ≠ b →
      ((rankBefore a b = true ∧ rankBefore b a = false) ∨
       (rankBefore a b = false ∧ rankBefore b a = true))) ∧
    (getRoundRanking wState).Perm wState.entries ∧
    List.Pairwise (fun a b => rankLE a b = true) (getRoundRanking wState) ∧
    getRoundRanking { wState with entries := getRoundRanking wState }
      = getRoundRanking wState :=
  c3_ranking_strict_total_order wDef wMap wState (Reach.base wState (by decide))

theorem calcSpeed_fst (horse : Horse) (e : RoundEntry) (d : ℚ) (rng : RandomSource) (k : ℕ) :
    (calculateSpeedMetersPerSecond horse e d rng k).1
      = max MINIMUM_SPEED_MPS (horse.basePace *
          (CONDITION_MULTIPLIER_BASE + horse.condition / CONDITION_MULTIPLIER_SCALE) *
          (RANDOM_PULSE_BASE + rng k * RANDOM_PULSE_RANGE) *
          (1 - e.distanceCovered / d * FATIGUE_MAX_PENALTY) *
          (if LATE_BOOST_TRIGGER_PROGRESS < e.distanceCovered / d
           then LATE_BOOST_BASE + rng (k + 1) * LATE_BOOST_RANGE else 1)) := by
  unfold calculateSpeedMetersPerSecond
  by_cases h : LATE_BOOST_TRIGGER_PROGRESS < e.distanceCovered / d
  · simp [h]
  · simp [h]

set_option maxHeartbeats 1600000 in
/-- C9: with identical base pace, entry state, round distance and RNG draws,
the per-tick speed computed inside `stepRound` (via
`calculateSpeedMetersPerSecond`) is strictly higher for the competitor with the
strictly higher condition.  The hypotheses pin the claim's domain: generated
competitors have base pace at least the fixed floor 12 and non-negative
condition, and an in-round entry keeps its distance covered within
`[0, round distance]`. -/
theorem c9_condition_strictly_increases_speed
    (horse1 horse2 : Horse) (e : RoundEntry) (d : ℚ) (rng : RandomSource) (k : ℕ)
    (hrng : ValidRng rng) (hpace : horse1.basePace = horse2.basePace)
    (hbp : BASE_PACE_MIN ≤ horse2.basePace)
    (hc0 : 0 ≤ horse1.condition) (hcond : horse1.condition < horse2.condition)
    (hcov0 : 0 ≤ e.distanceCovered) (hcovd : e.distanceCovered ≤ d) (hd : 0 < d) :
    (calculateSpeedMetersPerSecond horse1 e d rng k).1
      < (calculateSpeedMetersPerSecond horse2 e d rng k).1 := by
  rw [calcSpeed_fst, calcSpeed_fst, hpace]
  have hrk := (hrng k).1
  have hrk1 := (hrng (k + 1)).1
  have hratio0 : 0 ≤ e.distanceCovered / d := div_nonneg hcov0 hd.le
  have hratio1 : e.distanceCovered / d ≤ 1 := (div_le_one hd).mpr hcovd
  simp only [MINIMUM_SPEED_MPS, CONDITION_MULTIPLIER_BASE, CONDITION_MULTIPLIER_SCALE,
    RANDOM_PULSE_BASE, RANDOM_PULSE_RANGE, FATIGUE_MAX_PENALTY, LATE_BOOST_TRIGGER_PROGRESS,
    LATE_BOOST_BASE, LATE_BOOST_RANGE, BASE_PACE_MIN] at *
  set B := horse2.basePace with hB
  set r := e.distanceCovered / d with hr
  set L : ℚ := if (0.82 : ℚ) < r then (1.05 : ℚ) + rng (k + 1) * 0.08 else 1 with hL
  have hL1 : (1 : ℚ) ≤ L := by
    rw [hL]
    split
    · nlinarith
    · norm_num
  have hP : (0.9 : ℚ) ≤ 0.9 + rng k * 0.25 := by nlinarith
  have hF : (0.8 : ℚ) ≤ 1 - r * 0.2 := by nlinarith
  have hc2 : 0 ≤ horse2.condition := le_of_lt (lt_of_le_of_lt hc0 hcond)
  have hm1 : (0.78 : ℚ) ≤ 0.78 + horse1.condition / 100 := by
    have : 0 ≤ horse1.condition / 100 := by positivity
    linarith
  have hm2ge : (0.78 : ℚ) ≤ 0.78 + horse2.condition / 100 := by
    have : 0 ≤ horse2.condition / 100 := by positivity
    linarith
  have hm2lt : (0.78 : ℚ) + horse1.condition / 100 < 0.78 + horse2.condition / 100 := by
    linarith
  have hB12 : (12 : ℚ) ≤ B := hbp
  have hB0 : (0 : ℚ) < B := by linarith
  have hP0 : (0 : ℚ) < 0.9 + rng k * 0.25 := by linarith
  have hF0 : (0 : ℚ) < 1 - r * 0.2 := by linarith
  have hL0 : (0 : ℚ) < L := by linarith
  have hfac : 0 < B * (0.9 + rng k * 0.25) * (1 - r * 0.2) * L :=
    mul_pos (mul_pos (mul_pos hB0 hP0) hF0) hL0
  have hdiff : B * (0.78 + horse1.condition / 100) * (0.9 + rng k * 0.25) * (1 - r * 0.2) * L
      < B * (0.78 + horse2.condition / 100) * (0.9 + rng k * 0.25) * (1 - r * 0.2) * L := by
    have key := mul_pos (sub_pos.mpr hm2lt) hfac
    nlinarith [key]
  have s1 : (12 : ℚ) * 0.78 ≤ B * (0.78 + horse2.condition / 100) :=
    mul_le_mul hB12 hm2ge (by norm_num) (by linarith)
  have s2 : (12 : ℚ) * 0.78 * 0.9
      ≤ B * (0.78 + horse2.condition / 100) * (0.9 + rng k * 0.25) :=
    mul_le_mul s1 hP (by norm_num) (mul_nonneg (by linarith) (by linarith))
  have s3 : (12 : ℚ) * 0.78 * 0.9 * 0.8
      ≤ B * (0.78 + horse2.condition / 100) * (0.9 + rng k * 0.25) * (1 - r * 0.2) :=
    mul_le_mul s2 hF (by norm_num)
      (mul_nonneg (mul_nonneg (by linarith) (by linarith)) (by linarith))
  have s4 : (12 : ℚ) * 0.78 * 0.9 * 0.8 * 1
      ≤ B * (0.78 + horse2.condition / 100) * (0.9 + rng k * 0.25) * (1 - r * 0.2) * L :=
    mul_le_mul s3 hL1 (by norm_num)
      (mul_nonneg (mul_nonneg (mul_nonneg (by linarith) (by linarith)) (by linarith))
        (by linarith))
  have hp2 : (4.2 : ℚ)
      < B * (0.78 + horse2.condition / 100) * (0.9 + rng k * 0.25) * (1 - r * 0.2) * L := by
    nlinarith [s4]
  rw [max_eq_right (le_of_lt hp2)]
  exact max_lt hp2 hdiff

/-- C9 witness: the theorem instantiated at two concrete competitors with base
pace 12 and conditions 50 < 60, a fresh entry on a 1200 m round, and the
all-zero RNG. -/
theorem c9_condition_strictly_increases_speed_witness :
    (calculateSpeedMetersPerSecond cHorse1 wEntry 1200 rng0 0).1
      < (calculateSpeedMetersPerSecond cHorse2 wEntry 1200 rng0 0).1 :=
  c9_condition_strictly_increases_speed cHorse1 cHorse2 wEntry 1200 rng0 0
    (fun n => by norm_num [rng0]) rfl (by norm_num [cHorse2, BASE_PACE_MIN])
    (by norm_num [cHorse1]) (by norm_num [cHorse1, cHorse2])
    (by norm_num [wEntry]) (by norm_num [wEntry]) (by norm_num)

theorem stepEntry_unfinished_facts (horse : Horse) (d dS el dMs : ℚ) (rng : RandomSource)
    (k : ℕ) (e : RoundEntry) (hdS : 0 < dS)
    (hfin : ((stepEntry horse d dS el dMs rng k e).1).finishTimeMs = none) :
    ((stepEntry horse d dS el dMs rng k e).1).distanceCovered < d ∧
    e.distanceCovered + MINIMUM_SPEED_MPS * dS
      ≤ ((stepEntry horse d dS el dMs rng k e).1).distanceCovered := by
  set speed := (calculateSpeedMetersPerSecond horse e d rng k).1 with hsp
  have hcond : ¬ d ≤ min d (e.distanceCovered + speed * dS) := by
    intro hc
    rw [stepEntry_finishTimeMs, if_pos hc] at hfin
    cases hfin
  have ht : e.distanceCovered + speed * dS < d := by
    rcases le_or_lt d (e.distanceCovered + speed * dS) with hge | hlt
    · exact absurd (le_min le_rfl hge) hcond
    · exact hlt
  have hc' := stepEntry_distanceCovered horse d dS el dMs rng k e
  rw [← hsp] at hc'
  rw [hc', min_eq_right ht.le]
  refine ⟨ht, ?_⟩
  have := mul_le_mul_of_nonneg_right (speed_ge horse e d rng k) hdS.le
  rw [← hsp] at this
  linarith

theorem step_preserves_cover (s : RoundState) (dt : ℚ) (hm : HorseMap) (rng : RandomSource)
    (k : ℕ) (s' : RoundState) (k' : ℕ) (h : stepRound s dt hm rng k = some (s', k'))
    (hcov : ∀ e ∈ s.entries, (hm e.horseId).isSome) :
    ∀ e ∈ s'.entries, (hm e.horseId).isSome := by
  rcases stepRound_cases s dt hm rng k s' k' h with ⟨_, rfl, _⟩ | ⟨_, _, _, _, _, _, hlen, hpt⟩
  · exact hcov
  · intro e' he'
    obtain ⟨⟨i, hi'⟩, rfl⟩ := List.mem_iff_get.mp he'
    rw [(hpt i (hlen ▸ hi') hi').horseId_eq]
    exact hcov _ (List.get_mem ..)

theorem buildResultItems_isSome (hm : HorseMap) (el : ℚ) :
    ∀ (es : List RoundEntry) (idx : ℕ),
      (∀ e ∈ es, (hm e.horseId).isSome) → (buildResultItems hm el es idx).isSome := by
  intro es
  induction es with
  | nil => intro idx _; simp [buildResultItems]
  | cons e rest ih =>
    intro idx hcov
    have hl := hcov e (List.mem_cons_self ..)
    cases hlook : hm e.horseId with
    | none => rw [hlook] at hl; simp at hl
    | some horse =>
      rw [buildResultItems, hlook]
      have := ih (idx + 1) fun x hx => hcov x (List.mem_cons_of_mem _ hx)
      cases hrec : buildResultItems hm el rest (idx + 1) with
      | none => rw [hrec] at this; simp at this
      | some items => simp

theorem buildRoundResult_isSome (s : RoundState) (hm : HorseMap)
    (hcov : ∀ e ∈ s.entries, (hm e.horseId).isSome) :
    (buildRoundResult s hm).isSome := by
  unfold buildRoundResult
  have hr : ∀ e ∈ getRoundRanking s, (hm e.horseId).isSome := fun e he =>
    hcov e (((List.mergeSort_perm s.entries rankLE).mem_iff).mp he)
  have := buildResultItems_isSome hm s.elapsedMs (getRoundRanking s) 0 hr
  cases hb : buildResultItems hm s.elapsedMs (getRoundRanking s) 0 with
  | none => rw [hb] at this; simp at this
  | some items => simp

theorem simLoop_exit (hm : HorseMap) (rng : RandomSource) (stepMs : ℚ) (fuel : ℕ)
    (s : RoundState) (k : ℕ)
    (h : s.complete = true ∨ ¬ s.elapsedMs < MAX_SIMULATION_DURATION_MS) :
    simLoop hm rng stepMs fuel s k = some (some (s, k)) := by
  cases fuel with
  | zero => rw [simLoop, if_pos h]
  | succ f => rw [simLoop, if_pos h]

theorem simLoop_succ_step (hm : HorseMap) (rng : RandomSource) (stepMs : ℚ) (fuel : ℕ)
    (s : RoundState) (k : ℕ) (s' : RoundState) (k' : ℕ)
    (h : ¬ (s.complete = true ∨ ¬ s.elapsedMs < MAX_SIMULATION_DURATION_MS))
    (hstep : stepRound s stepMs hm rng k = some (s', k')) :
    simLoop hm rng stepMs (fuel + 1) s k = simLoop hm rng stepMs fuel s' k' := by
  rw [simLoop, if_neg h, hstep]

theorem simLoop_terminates (hm : HorseMap) (rng : RandomSource) (stepMs : ℚ)
    (hstep : 0 < stepMs) :
    ∀ (n : ℕ) (s : RoundState) (k : ℕ),
      s.complete = (s.entries.all fun e => e.finishTimeMs.isSome) →
      (∀ e ∈ s.entries, (hm e.horseId).isSome) →
      (∀ e ∈ s.entries, e.finishTimeMs = none →
        e.distanceCovered < s.distance ∧
        s.distance ≤ e.distanceCovered +
          n * (MINIMUM_SPEED_MPS * (stepMs / MILLISECONDS_IN_SECOND))) →
      ∃ sf kf, simLoop hm rng stepMs n s k = some (some (sf, kf)) ∧
        (sf.complete = true ∨ ¬ sf.elapsedMs < MAX_SIMULATION_DURATION_MS) ∧
        (∀ e ∈ sf.entries, (hm e.horseId).isSome) := by
  intro n
  induction n with
  | zero =>
    intro s k hC hcov hbound
    by_cases hexit : s.complete = true ∨ ¬ s.elapsedMs < MAX_SIMULATION_DURATION_MS
    · exact ⟨s, k, simLoop_exit hm rng stepMs 0 s k hexit, hexit, hcov⟩
    · exfalso
      push_neg at hexit
      have hfalse : s.complete = false := Bool.not_eq_true _ ▸ hexit.1
      rw [hfalse] at hC
      obtain ⟨e, he, hne⟩ := List.all_eq_false.mp hC.symm
      have hnone : e.finishTimeMs = none := by
        cases hfin : e.finishTimeMs with
        | none => rfl
        | some t => rw [hfin] at hne; simp at hne
      obtain ⟨hlt, hge⟩ := hbound e he hnone
      push_cast at hge
      linarith
  | succ n ih =>
    intro s k hC hcov hbound
    by_cases hexit : s.complete = true ∨ ¬ s.elapsedMs < MAX_SIMULATION_DURATION_MS
    · exact ⟨s, k, simLoop_exit hm rng stepMs (n + 1) s k hexit, hexit, hcov⟩
    · have hcompl : s.complete = false := by
        push_neg at hexit
        exact Bool.not_eq_true _ ▸ hexit.1
      have hsome := stepRound_isSome s stepMs hm rng k fun e he _ => hcov e he
      obtain ⟨p, hp⟩ := Option.isSome_iff_exists.mp hsome
      obtain ⟨_, hdist, _, hcomp', hlen, hpt⟩ :=
        stepRound_effective s stepMs hm rng k p.1 p.2 hcompl hstep (by rw [hp])
      have hcov' : ∀ e ∈ p.1.entries, (hm e.horseId).isSome :=
        step_preserves_cover s stepMs hm rng k p.1 p.2 (by rw [hp]) hcov
      have hdS : 0 < stepMs / MILLISECONDS_IN_SECOND := by
        have : (0 : ℚ) < MILLISECONDS_IN_SECOND := by norm_num [MILLISECONDS_IN_SECOND]
        positivity
      have hbound' : ∀ e ∈ p.1.entries, e.finishTimeMs = none →
          e.distanceCovered < p.1.distance ∧
          p.1.distance ≤ e.distanceCovered +
            n * (MINIMUM_SPEED_MPS * (stepMs / MILLISECONDS_IN_SECOND)) := by
        intro e' he' hfin'
        obtain ⟨⟨i, hi'⟩, rfl⟩ := List.mem_iff_get.mp he'
        have hi : i < s.entries.length := hlen ▸ hi'
        have hev := hpt i hi hi'
        have hfin0 : (s.entries.get ⟨i, hi⟩).finishTimeMs = none := hev.finish_mono hfin'
        obtain ⟨horse, kk, _, he'eq⟩ := hev.2 hfin0
        rw [he'eq] at hfin' ⊢
        obtain ⟨hlt, hinc⟩ := stepEntry_unfinished_facts horse s.distance
          (stepMs / MILLISECONDS_IN_SECOND) s.elapsedMs stepMs rng kk
          (s.entries.get ⟨i, hi⟩) hdS hfin'
        obtain ⟨_, hge0⟩ := hbound (s.entries.get ⟨i, hi⟩) (List.get_mem ..) hfin0
        rw [hdist]
        constructor
        · exact hlt
        · push_cast at hge0 ⊢
          linarith
      obtain ⟨sf, kf, hloop, hexitf, hcovf⟩ := ih p.1 p.2 hcomp' hcov' hbound'
      refine ⟨sf, kf, ?_, hexitf, hcovf⟩
      rw [simLoop_succ_step hm rng stepMs n s k p.1 p.2 hexit (by rw [hp])]
      exact hloop

theorem simulateRound_unfold (round : RaceRoundDefinition) (hm : HorseMap)
    (rng : RandomSource) (stepMs : ℚ) (k : ℕ) (fuel : ℕ) (s0 : RoundState)
    (hs0 : createRoundState round hm = some s0) :
    simulateRound round hm rng stepMs k fuel
      = (simLoop hm rng stepMs fuel s0 k).map fun r =>
          match r with
          | none => Except.error "Horse was not found in the horse map"
          | some (s, _) =>
              if s.complete = true then
                match buildRoundResult s hm with
                | some res => Except.ok res
                | none => Except.error "Horse was not found in the horse map"
              else Except.error "Round simulation timed out" := by
  unfold simulateRound
  rw [hs0]

/-- C8: for every round definition, every horse map containing the referenced
ids, every RNG and every positive step size, the `simulateRound` loop
terminates: some finite fuel suffices for the loop to exit (every unfinished
entry gains at least `MINIMUM_SPEED_MPS` worth of distance per tick), and the
call then either returns the built round result or fails with the
simulation-timeout condition. -/
theorem c8_simulate_round_terminates (round : RaceRoundDefinition) (hm : HorseMap)
    (rng : RandomSource) (stepMs : ℚ) (k : ℕ)
    (hcov : ∀ hid ∈ round.horseIds, (hm hid).isSome) (hstep : 0 < stepMs) :
    ∃ fuel out, simulateRound round hm rng stepMs k fuel = some out ∧
      ((∃ res, out = Except.ok res) ∨ out = Except.error "Round simulation timed out") := by
  obtain ⟨s0, hs0⟩ := Option.isSome_iff_exists.mp (createRoundState_isSome round hm hcov)
  obtain ⟨_, hdist0, helap0, hcompl0, hids0, _, hfresh0⟩ := createRoundState_spec round hm s0 hs0
  have hcov0 : ∀ e ∈ s0.entries, (hm e.horseId).isSome := by
    intro e he
    apply hcov
    rw [← hids0]
    exact List.mem_map_of_mem _ he
  have hnotexit0 : ¬ (s0.complete = true ∨ ¬ s0.elapsedMs < MAX_SIMULATION_DURATION_MS) := by
    rw [hcompl0, helap0]
    push_neg
    exact ⟨by simp, by norm_num [MAX_SIMULATION_DURATION_MS]⟩
  have hsome := stepRound_isSome s0 stepMs hm rng k fun e he _ => hcov0 e he
  obtain ⟨p, hp⟩ := Option.isSome_iff_exists.mp hsome
  obtain ⟨_, hdist1, _, hcomp1, hlen1, hpt1⟩ :=
    stepRound_effective s0 stepMs hm rng k p.1 p.2 hcompl0 hstep (by rw [hp])
  have hcov1 : ∀ e ∈ p.1.entries, (hm e.horseId).isSome :=
    step_preserves_cover s0 stepMs hm rng k p.1 p.2 (by rw [hp]) hcov0
  have hdS : 0 < stepMs / MILLISECONDS_IN_SECOND := by
    have : (0 : ℚ) < MILLISECONDS_IN_SECOND := by norm_num [MILLISECONDS_IN_SECOND]
    positivity
  set delta : ℚ := MINIMUM_SPEED_MPS * (stepMs / MILLISECONDS_IN_SECOND) with hdelta
  have hdelta0 : 0 < delta := mul_pos minimum_speed_pos hdS
  set n : ℕ := ⌈s0.distance / delta⌉₊ with hn
  have hnd : s0.distance ≤ n * delta := by
    have h1 : s0.distance / delta ≤ (n : ℚ) := Nat.le_ceil _
    exact (div_le_iff₀ hdelta0).mp h1
  have hbound1 : ∀ e ∈ p.1.entries, e.finishTimeMs = none →
      e.distanceCovered < p.1.distance ∧
      p.1.distance ≤ e.distanceCovered + n * delta := by
    intro e' he' hfin'
    obtain ⟨⟨i, hi'⟩, rfl⟩ := List.mem_iff_get.mp he'
    have hi : i < s0.entries.length := hlen1 ▸ hi'
    have hev := hpt1 i hi hi'
    have hfin0 : (s0.entries.get ⟨i, hi⟩).finishTimeMs = none := hev.finish_mono hfin'
    obtain ⟨horse, kk, _, he'eq⟩ := hev.2 hfin0
    rw [he'eq] at hfin' ⊢
    obtain ⟨hlt, hinc⟩ := stepEntry_unfinished_facts horse s0.distance
      (stepMs / MILLISECONDS_IN_SECOND) s0.elapsedMs stepMs rng kk
      (s0.entries.get ⟨i, hi⟩) hdS hfin'
    have hcv0 : (s0.entries.get ⟨i, hi⟩).distanceCovered = 0 :=
      (hfresh0 _ (List.get_mem ..)).1
    rw [hcv0] at hinc
    rw [hdist1]
    exact ⟨hlt, by linarith⟩
  obtain ⟨sf, kf, hloop, hexitf, hcovf⟩ := simLoop_terminates hm rng stepMs hstep n p.1 p.2
    hcomp1 hcov1 hbound1
  have hloopAll : simLoop hm rng stepMs (n + 1) s0 k = some (some (sf, kf)) := by
    rw [simLoop_succ_step hm rng stepMs n s0 k p.1 p.2 hnotexit0 (by rw [hp])]
    exact hloop
  by_cases hcompf : sf.complete = true
  · obtain ⟨res, hres⟩ := Option.isSome_iff_exists.mp (buildRoundResult_isSome sf hm hcovf)
    refine ⟨n + 1, Except.ok res, ?_, Or.inl ⟨res, rfl⟩⟩
    rw [simulateRound_unfold round hm rng stepMs k (n + 1) s0 hs0, hloopAll, Option.map_some']
    simp [hcompf, hres]
  · refine ⟨n + 1, Except.error "Round simulation timed out", ?_, Or.inr rfl⟩
    rw [simulateRound_unfold round hm rng stepMs k (n + 1) s0 hs0, hloopAll, Option.map_some']
    simp [hcompf]

/-- C8 witness: the theorem instantiated at the concrete one-horse 1200 m round
`wDef`/`wMap`, a 1000 ms step and the all-zero RNG. -/
theorem c8_simulate_round_terminates_witness :
    ∃ fuel out, simulateRound wDef wMap rng0 1000 0 fuel = some out ∧
      ((∃ res, out = Except.ok res) ∨ out = Except.error "Round simulation timed out") :=
  c8_simulate_round_terminates wDef wMap rng0 1000 0 (by decide) (by norm_num)

theorem bumpIf_horseId (row : SummaryRow) (item : RoundResultItem) :
    (bumpIf row item).horseId = row.horseId := by
  unfold bumpIf
  split <;> rfl

theorem tallyItems_cons (it : RoundResultItem) (rest : List RoundResultItem)
    (row : SummaryRow) :
    tallyItems (it :: rest) row = tallyItems rest (bumpIf row it) := rfl

theorem tallyItems_horseId (items : List RoundResultItem) :
    ∀ row : SummaryRow, (tallyItems items row).horseId = row.horseId := by
  induction items with
  | nil => intro row; rfl
  | cons it rest ih =>
    intro row
    rw [tallyItems_cons, ih (bumpIf row it), bumpIf_horseId]

theorem tallyItems_static (items : List RoundResultItem) :
    ∀ row : SummaryRow, (tallyItems items row).name = row.name ∧
      (tallyItems items row).color = row.color ∧
      (tallyItems items row).condition = row.condition := by
  induction items with
  | nil => intro row; exact ⟨rfl, rfl, rfl⟩
  | cons it rest ih =>
    intro row
    rw [tallyItems_cons]
    have := ih (bumpIf row it)
    have hb : (bumpIf row it).name = row.name ∧ (bumpIf row it).color = row.color ∧
        (bumpIf row it).condition = row.condition := by
      unfold bumpIf
      split <;> exact ⟨rfl, rfl, rfl⟩
    exact ⟨this.1.trans hb.1, this.2.1.trans hb.2.1, this.2.2.trans hb.2.2⟩

theorem matchFilter_cons_pos (it : RoundResultItem) (rest : List RoundResultItem)
    (hid : String) (h : it.horseId = hid) :
    ((it :: rest).filter fun x => x.horseId == hid)
      = it :: (rest.filter fun x => x.horseId == hid) := by
  rw [List.filter_cons, if_pos (by simp [h])]

theorem matchFilter_cons_neg (it : RoundResultItem) (rest : List RoundResultItem)
    (hid : String) (h : ¬ it.horseId = hid) :
    ((it :: rest).filter fun x => x.horseId == hid)
      = rest.filter fun x => x.horseId == hid := by
  rw [List.filter_cons, if_neg (by simpa using h)]

theorem tallyItems_rounds (items : List RoundResultItem) :
    ∀ row : SummaryRow, (tallyItems items row).rounds
      = row.rounds + (items.filter fun it => it.horseId == row.horseId).length := by
  induction items with
  | nil => intro row; simp [tallyItems]
  | cons it rest ih =>
    intro row
    rw [tallyItems_cons]
    have hrec := ih (bumpIf row it)
    rw [bumpIf_horseId] at hrec
    by_cases h : it.horseId = row.horseId
    · rw [matchFilter_cons_pos it rest row.horseId h, hrec]
      have : (bumpIf row it).rounds = row.rounds + 1 := by
        unfold bumpIf
        rw [if_pos h.symm]
        rfl
      rw [this]
      simp
      omega
    · rw [matchFilter_cons_neg it rest row.horseId h, hrec]
      have : (bumpIf row it).rounds = row.rounds := by
        unfold bumpIf
        rw [if_neg (fun hh => h hh.symm)]
      rw [this]

theorem tallyItems_totalTimeMs (items : List RoundResultItem) :
    ∀ row : SummaryRow, (tallyItems items row).totalTimeMs
      = row.totalTimeMs
        + ((items.filter fun it => it.horseId == row.horseId).map (·.timeMs)).sum := by
  induction items with
  | nil => intro row; simp [tallyItems]
  | cons it rest ih =>
    intro row
    rw [tallyItems_cons]
    have hrec := ih (bumpIf row it)
    rw [bumpIf_horseId] at hrec
    by_cases h : it.horseId = row.horseId
    · rw [matchFilter_cons_pos it rest row.horseId h, hrec]
      have : (bumpIf row it).totalTimeMs = row.totalTimeMs + it.timeMs := by
        unfold bumpIf
        rw [if_pos h.symm]
        rfl
      rw [this]
      simp
      ring
    · rw [matchFilter_cons_neg it rest row.horseId h, hrec]
      have : (bumpIf row it).totalTimeMs = row.totalTimeMs := by
        unfold bumpIf
        rw [if_neg (fun hh => h hh.symm)]
      rw [this]

theorem tallyItems_wins (items : List RoundResultItem) :
    ∀ row : SummaryRow, (tallyItems items row).wins
      = row.wins + ((items.filter fun it => it.horseId == row.horseId).filter
          fun it => it.position == 1).length := by
  induction items with
  | nil => intro row; simp [tallyItems]
  | cons it rest ih =>
    intro row
    rw [tallyItems_cons]
    have hrec := ih (bumpIf row it)
    rw [bumpIf_horseId] at hrec
    by_cases h : it.horseId = row.horseId
    · rw [matchFilter_cons_pos it rest row.horseId h, hrec]
      have : (bumpIf row it).wins
          = row.wins + (if it.position = 1 then 1 else 0) := by
        unfold bumpIf
        rw [if_pos h.symm]
        rfl
      rw [this, List.filter_cons]
      by_cases hp : it.position = 1
      · rw [if_pos (by simp [hp])]
        simp [hp]
        omega
      · rw [if_neg (by simpa using hp)]
        simp [hp]
    · rw [matchFilter_cons_neg it rest row.horseId h, hrec]
      have : (bumpIf row it).wins = row.wins := by
        unfold bumpIf
        rw [if_neg (fun hh => h hh.symm)]
      rw [this]

theorem tallyItems_podiums (items : List RoundResultItem) :
    ∀ row : SummaryRow, (tallyItems items row).podiums
      = row.podiums + ((items.filter fun it => it.horseId == row.horseId).filter
          fun it => decide (it.position ≤ 3)).length := by
  induction items with
  | nil => intro row; simp [tallyItems]
  | cons it rest ih =>
    intro row
    rw [tallyItems_cons]
    have hrec := ih (bumpIf row it)
    rw [bumpIf_horseId] at hrec
    by_cases h : it.horseId = row.horseId
    · rw [matchFilter_cons_pos it rest row.horseId h, hrec]
      have : (bumpIf row it).podiums
          = row.podiums + (if it.position ≤ 3 then 1 else 0) := by
        unfold bumpIf
        rw [if_pos h.symm]
        rfl
      rw [this, List.filter_cons]
      by_cases hp : it.position ≤ 3
      · rw [if_pos (by simpa using hp)]
        simp [hp]
        omega
      · rw [if_neg (by simpa using hp)]
        simp [hp]
    · rw [matchFilter_cons_neg it rest row.horseId h, hrec]
      have : (bumpIf row it).podiums = row.podiums := by
        unfold bumpIf
        rw [if_neg (fun hh => h hh.symm)]
      rw [this]

theorem tallyItems_points (items : List RoundResultItem) :
    ∀ row : SummaryRow, (tallyItems items row).points
      = row.points + ((items.filter fun it => it.horseId == row.horseId).map
          fun it => pointsForPosition it.position).sum := by
  induction items with
  | nil => intro row; simp [tallyItems]
  | cons it rest ih =>
    intro row
    rw [tallyItems_cons]
    have hrec := ih (bumpIf row it)
    rw [bumpIf_horseId] at hrec
    by_cases h : it.horseId = row.horseId
    · rw [matchFilter_cons_pos it rest row.horseId h, hrec]
      have : (bumpIf row it).points = row.points + pointsForPosition it.position := by
        unfold bumpIf
        rw [if_pos h.symm]
        rfl
      rw [this]
      simp
      omega
    · rw [matchFilter_cons_neg it rest row.horseId h, hrec]
      have : (bumpIf row it).points = row.points := by
        unfold bumpIf
        rw [if_neg (fun hh => h hh.symm)]
      rw [this]

theorem tallyResults_eq (results : List RoundResult) :
    ∀ row : SummaryRow,
      tallyResults results row = tallyItems ((results.map (·.order)).flatten) row := by
  induction results with
  | nil => intro row; rfl
  | cons res rest ih =>
    intro row
    show tallyResults rest (res.order.foldl bumpIf row) = _
    rw [ih]
    simp [tallyItems, List.foldl_append]

theorem find?_applyItem (rows : List SummaryRow) (item : RoundResultItem) (hid : String) :
    (applyItem rows item).find? (fun r => r.horseId == hid)
      = (rows.find? (fun r => r.horseId == hid)).map fun r => bumpIf r item := by
  unfold applyItem
  rw [List.find?_map]
  have hpred : ((fun r : SummaryRow => r.horseId == hid) ∘ fun row =>
      if row.horseId = item.horseId then bumpRow row item else row)
      = fun r : SummaryRow => r.horseId == hid := by
    funext r
    simp only [Function.comp_apply]
    split <;> rfl
  rw [hpred]
  rfl

theorem find?_foldl_applyItem (items : List RoundResultItem) :
    ∀ (rows : List SummaryRow) (hid : String),
      (items.foldl applyItem rows).find? (fun r => r.horseId == hid)
        = (rows.find? (fun r => r.horseId == hid)).map (tallyItems items) := by
  induction items with
  | nil =>
    intro rows hid
    rw [List.foldl_nil]
    cases hf : rows.find? (fun r => r.horseId == hid) <;> simp [hf, tallyItems]
  | cons it rest ih =>
    intro rows hid
    rw [List.foldl_cons, ih (applyItem rows it) hid, find?_applyItem]
    cases rows.find? (fun r => r.horseId == hid) with
    | none => rfl
    | some r => rfl

theorem find?_summaryFold (horses : List Horse) (results : List RoundResult) (hid : String) :
    (summaryFold horses results).find? (fun r => r.horseId == hid)
      = ((horses.map initRow).find? (fun r => r.horseId == hid)).map (tallyResults results) := by
  unfold summaryFold
  suffices h : ∀ rows : List SummaryRow,
      (results.foldl (fun acc r => r.order.foldl applyItem acc) rows).find?
          (fun r => r.horseId == hid)
        = (rows.find? (fun r => r.horseId == hid)).map (tallyResults results) from h _
  induction results with
  | nil =>
    intro rows
    rw [List.foldl_nil]
    cases hf : rows.find? (fun r => r.horseId == hid) <;> simp [hf, tallyResults]
  | cons res rest ih =>
    intro rows
    rw [List.foldl_cons, ih (res.order.foldl applyItem rows), find?_foldl_applyItem]
    cases rows.find? (fun r => r.horseId == hid) with
    | none => rfl
    | some r => rfl

theorem find?_initRows (horses : List Horse) :
    ∀ (h : Horse), h ∈ horses → (horses.map (·.id)).Nodup →
      (horses.map initRow).find? (fun r => r.horseId == h.id) = some (initRow h) := by
  induction horses with
  | nil => intro h hmem; simp at hmem
  | cons g rest ih =>
    intro h hmem hnd
    rcases List.mem_cons.mp hmem with rfl | hmem'
    · rw [List.map_cons, List.find?_cons_of_pos]
      simp [initRow]
    · have hne : g.id ≠ h.id := by
        intro heq
        have : h.id ∈ rest.map (·.id) := List.mem_map_of_mem _ hmem'
        rw [← heq] at this
        exact (List.nodup_cons.mp (by simpa using hnd)).1 this
      rw [List.map_cons, List.find?_cons_of_neg]
      · exact ih h hmem' (List.nodup_cons.mp (by simpa using hnd)).2
      · simp [initRow, hne]

theorem applyItem_ids (rows : List SummaryRow) (item : RoundResultItem) :
    (applyItem rows item).map (·.horseId) = rows.map (·.horseId) := by
  unfold applyItem
  rw [List.map_map]
  apply List.map_congr_left
  intro r _
  simp only [Function.comp_apply]
  split <;> rfl

theorem foldl_applyItem_ids (items : List RoundResultItem) :
    ∀ rows : List SummaryRow,
      (items.foldl applyItem rows).map (·.horseId) = rows.map (·.horseId) := by
  induction items with
  | nil => intro rows; rfl
  | cons it rest ih =>
    intro rows
    rw [List.foldl_cons, ih, applyItem_ids]

theorem summaryFold_ids (horses : List Horse) (results : List RoundResult) :
    (summaryFold horses results).map (·.horseId) = horses.map (·.id) := by
  unfold summaryFold
  suffices h : ∀ rows : List SummaryRow,
      (results.foldl (fun acc r => r.order.foldl applyItem acc) rows).map (·.horseId)
        = rows.map (·.horseId) by
    rw [h, List.map_map]
    rfl
  induction results with
  | nil => intro rows; rfl
  | cons res rest ih =>
    intro rows
    rw [List.foldl_cons, ih, foldl_applyItem_ids]

theorem lbLE_iff (horses : List Horse) (a b : LeaderboardRow) :
    lbLE horses a b = true ↔
      (b.points < a.points ∨ (a.points = b.points ∧
        (a.avgTimeMs < b.avgTimeMs ∨ (a.avgTimeMs = b.avgTimeMs ∧
          condOf horses b.horseId ≤ condOf horses a.horseId)))) := by
  unfold lbLE
  by_cases h1 : a.points = b.points
  · rw [if_neg (by simp [h1])]
    by_cases h2 : a.avgTimeMs = b.avgTimeMs
    · rw [if_neg (by simp [h2])]
      simp [h1, h2, lt_irrefl]
    · rw [if_pos h2]
      simp [h1, h2, lt_irrefl]
  · rw [if_pos h1]
    simp [h1]

theorem lbLE_trans (horses : List Horse) (a b c : LeaderboardRow)
    (hab : lbLE horses a b = true) (hbc : lbLE horses b c = true) :
    lbLE horses a c = true := by
  rw [lbLE_iff] at hab hbc ⊢
  rcases hab with h1 | ⟨h1, h1'⟩ <;> rcases hbc with h2 | ⟨h2, h2'⟩
  · exact Or.inl (lt_trans h2 h1)
  · exact Or.inl (by rw [← h2]; exact h1)
  · exact Or.inl (by rw [h1]; exact h2)
  · refine Or.inr ⟨h1.trans h2, ?_⟩
    rcases h1' with hc1 | ⟨hc1, hl1⟩ <;> rcases h2' with hc2 | ⟨hc2, hl2⟩
    · exact Or.inl (lt_trans hc1 hc2)
    · exact Or.inl (by rw [← hc2]; exact hc1)
    · exact Or.inl (by rw [hc1]; exact hc2)
    · exact Or.inr ⟨hc1.trans hc2, le_trans hl2 hl1⟩

theorem lbLE_total (horses : List Horse) (a b : LeaderboardRow) :
    lbLE horses a b = true ∨ lbLE horses b a = true := by
  rw [lbLE_iff, lbLE_iff]
  rcases lt_trichotomy a.points b.points with h | h | h
  · exact Or.inr (Or.inl h)
  · rcases lt_trichotomy a.avgTimeMs b.avgTimeMs with h2 | h2 | h2
    · exact Or.inl (Or.inr ⟨h, Or.inl h2⟩)
    · rcases le_total (condOf horses b.horseId) (condOf horses a.horseId) with h3 | h3
      · exact Or.inl (Or.inr ⟨h, Or.inr ⟨h2, h3⟩⟩)
      · exact Or.inr (Or.inr ⟨h.symm, Or.inr ⟨h2.symm, h3⟩⟩)
    · exact Or.inr (Or.inr ⟨h.symm, Or.inl h2⟩)
  · exact Or.inl (Or.inl h)

theorem itemsFor_cons (hid : String) (res : RoundResult) (rest : List RoundResult) :
    itemsFor hid (res :: rest)
      = (res.order.filter fun x => x.horseId == hid) ++ itemsFor hid rest := by
  unfold itemsFor
  simp [List.filter_append]

theorem points_sum_of_all_wins (hid : String) : ∀ results : List RoundResult,
    (∀ res ∈ results, ∃ it, (res.order.filter fun x => x.horseId == hid) = [it] ∧
      it.position = 1) →
    ((itemsFor hid results).map fun it => pointsForPosition it.position).sum
      = 5 * results.length := by
  intro results
  induction results with
  | nil => intro _; simp [itemsFor]
  | cons res rest ih =>
    intro hwin
    obtain ⟨it, hfil, hp1⟩ := hwin res (List.mem_cons_self ..)
    have hrest := ih fun r hr => hwin r (List.mem_cons_of_mem _ hr)
    rw [itemsFor_cons, hfil, List.map_append, List.sum_append, hrest]
    simp [hp1, pointsForPosition]
    omega

theorem itemsFor_nil_of_absent (hid : String) : ∀ results : List RoundResult,
    (∀ res ∈ results, ∀ it ∈ res.order, it.horseId ≠ hid) →
    itemsFor hid results = [] := by
  intro results
  induction results with
  | nil => intro _; rfl
  | cons res rest ih =>
    intro habs
    rw [itemsFor_cons, ih fun r hr => habs r (List.mem_cons_of_mem _ hr)]
    have : (res.order.filter fun x => x.horseId == hid) = [] := by
      rw [List.filter_eq_nil_iff]
      intro it hit
      simpa using habs res (List.mem_cons_self ..) it hit
    rw [this]
    rfl

/-- C5 counterexample: for a single competitor with one finished round of
exact time 1/3 ms, the produced leaderboard row's average time is
`toFixed(2)`-rounded to `0.33`, not the exact quotient `1/3` the claim
states (`totalTimeMs / rounds = (1/3)/1 = 1/3 ≠ 33/100`). -/
theorem c5_counterexample :
    ((buildLeaderboard [wHorse] [lbResult]).map fun r => r.avgTimeMs) = [33/100] ∧
    ((buildLeaderboard [wHorse] [lbResult]).map fun r => r.totalTimeMs / (r.rounds : ℚ))
      = [1/3] ∧
    (33/100 : ℚ) ≠ 1/3 := by
  refine ⟨?_, ?_, by norm_num⟩ <;>
    · simp [buildLeaderboard, summaryFold, applyItem, initRow, bumpRow, finalizeRow,
        wHorse, lbResult, lbItem, toFixed2, pointsForPosition]
      try norm_num

/-- C5 (amended): `buildLeaderboard`, for a pool with distinct ids and genuine
round results (positions at least 1), produces for every competitor a row whose
points are the sum of per-item awards (5/3/2 for positions 1/2/3, 1 otherwise),
whose wins count position-1 items, whose podiums count positions 1–3, whose
rounds/total time aggregate its items, and whose average time is total time
divided by rounds — rounded to two decimals by `toFixed(2)` — or 0 for zero
rounds; a competitor winning every round of an n-round history has exactly 5n
points and one with no rounds has 0 points and 0 average; and the output is
the summary rows sorted by descending points, then ascending average time,
then descending condition. -/
theorem c5_leaderboard_aggregation
    (horses : List Horse) (results : List RoundResult)
    (hnd : (horses.map (·.id)).Nodup)
    (hpos : ∀ res ∈ results, ∀ it ∈ res.order, 1 ≤ it.position) :
    (∀ h ∈ horses, ∃ row,
       row ∈ buildLeaderboard horses results ∧ row.horseId = h.id ∧
       row.points = ((itemsFor h.id results).map fun it => pointsForPosition it.position).sum ∧
       row.wins = ((itemsFor h.id results).filter fun it => it.position == 1).length ∧
       row.podiums = ((itemsFor h.id results).filter fun it =>
           decide (1 ≤ it.position ∧ it.position ≤ 3)).length ∧
       row.rounds = (itemsFor h.id results).length ∧
       row.totalTimeMs = ((itemsFor h.id results).map (·.timeMs)).sum ∧
       row.avgTimeMs
         = (if 0 < row.rounds then toFixed2 (row.totalTimeMs / (row.rounds : ℚ)) else 0)) ∧
    (pointsForPosition 1 = 5 ∧ pointsForPosition 2 = 3 ∧ pointsForPosition 3 = 2 ∧
      ∀ p : ℕ, p ≠ 1 → p ≠ 2 → p ≠ 3 → pointsForPosition p = 1) ∧
    List.Pairwise (fun a b => lbLE horses a b = true) (buildLeaderboard horses results) ∧
    (buildLeaderboard horses results).Perm ((summaryFold horses results).map finalizeRow) ∧
    (∀ h ∈ horses,
       (∀ res ∈ results, ∃ it, (res.order.filter fun x => x.horseId == h.id) = [it] ∧
         it.position = 1) →
       ∃ row, row ∈ buildLeaderboard horses results ∧ row.horseId = h.id ∧
         row.points = 5 * results.length) ∧
    (∀ h ∈ horses, (∀ res ∈ results, ∀ it ∈ res.order, it.horseId ≠ h.id) →
       ∃ row, row ∈ buildLeaderboard horses results ∧ row.horseId = h.id ∧
         row.points = 0 ∧ row.rounds = 0 ∧ row.avgTimeMs = 0) := by
  have hrowFor : ∀ h ∈ horses,
      tallyResults results (initRow h) ∈ summaryFold horses results ∧
      finalizeRow (tallyResults results (initRow h)) ∈ buildLeaderboard horses results := by
    intro h hmem
    have hfind := find?_summaryFold horses results h.id
    rw [find?_initRows horses h hmem hnd] at hfind
    have hmemS : tallyResults results (initRow h) ∈ summaryFold horses results :=
      List.mem_of_find?_eq_some hfind
    refine ⟨hmemS, ?_⟩
    unfold buildLeaderboard
    exact ((List.mergeSort_perm _ (lbLE horses)).mem_iff).mpr (List.mem_map_of_mem _ hmemS)
  have hflatEq : ∀ h : Horse,
      tallyResults results (initRow h)
        = tallyItems ((results.map (·.order)).flatten) (initRow h) :=
    fun h => tallyResults_eq results (initRow h)
  have hitems : ∀ h : Horse,
      (((results.map (·.order)).flatten).filter fun it => it.horseId == (initRow h).horseId)
        = itemsFor h.id results := fun h => rfl
  refine ⟨?_, ⟨rfl, rfl, rfl, ?_⟩, ?_, ?_, ?_, ?_⟩
  · intro h hmem
    obtain ⟨hmemS, hrowmem⟩ := hrowFor h hmem
    set srow := tallyResults results (initRow h) with hsrow
    have hhid : srow.horseId = h.id := by
      rw [hsrow, hflatEq, tallyItems_horseId]
      rfl
    have hposall : ∀ it ∈ itemsFor h.id results, 1 ≤ it.position := by
      intro it hit
      have hit' : it ∈ (results.map (·.order)).flatten := List.mem_of_mem_filter hit
      obtain ⟨l, hl, hitl⟩ := List.mem_flatten.mp hit'
      obtain ⟨res, hres, rfl⟩ := List.mem_map.mp hl
      exact hpos res hres it hitl
    refine ⟨finalizeRow srow, hrowmem, hhid, ?_, ?_, ?_, ?_, ?_, rfl⟩
    · show srow.points = _
      rw [hsrow, hflatEq, tallyItems_points, hitems]
      simp [initRow]
    · show srow.wins = _
      rw [hsrow, hflatEq, tallyItems_wins, hitems]
      simp [initRow]
    · show srow.podiums = _
      rw [hsrow, hflatEq, tallyItems_podiums, hitems]
      have hfc : ((itemsFor h.id results).filter fun it => decide (it.position ≤ 3))
          = (itemsFor h.id results).filter fun it =>
              decide (1 ≤ it.position ∧ it.position ≤ 3) := by
        apply List.filter_congr
        intro it hit
        have h1 := hposall it hit
        by_cases h3 : it.position ≤ 3
        · simp [h3, h1]
        · simp [h3]
      rw [hfc]
      simp [initRow]
    · show srow.rounds = _
      rw [hsrow, hflatEq, tallyItems_rounds, hitems]
      simp [initRow]
    · show srow.totalTimeMs = _
      rw [hsrow, hflatEq, tallyItems_totalTimeMs, hitems]
      simp [initRow]
  · intro p h1 h2 h3
    unfold pointsForPosition
    rw [if_neg h1, if_neg h2, if_neg h3]
    rfl
  · exact List.sorted_mergeSort (fun a b c => lbLE_trans horses a b c)
      (fun a b => by rcases lbLE_total horses a b with h | h <;> simp [h])
      ((summaryFold horses results).map finalizeRow)
  · exact List.mergeSort_perm _ _
  · intro h hmem hwin
    obtain ⟨_, hrowmem⟩ := hrowFor h hmem
    refine ⟨finalizeRow (tallyResults results (initRow h)), hrowmem, ?_, ?_⟩
    · show (tallyResults results (initRow h)).horseId = h.id
      rw [hflatEq, tallyItems_horseId]
      rfl
    · show (tallyResults results (initRow h)).points = _
      rw [hflatEq, tallyItems_points, hitems]
      rw [points_sum_of_all_wins h.id results hwin]
      simp [initRow]
  · intro h hmem habs
    obtain ⟨_, hrowmem⟩ := hrowFor h hmem
    have hnil := itemsFor_nil_of_absent h.id results habs
    refine ⟨finalizeRow (tallyResults results (initRow h)), hrowmem, ?_, ?_, ?_, ?_⟩
    · show (tallyResults results (initRow h)).horseId = h.id
      rw [hflatEq, tallyItems_horseId]
      rfl
    · show (tallyResults results (initRow h)).points = _
      rw [hflatEq, tallyItems_points, hitems, hnil]
      simp [initRow]
    · show (tallyResults results (initRow h)).rounds = _
      rw [hflatEq, tallyItems_rounds, hitems, hnil]
      simp [initRow]
    · show (if 0 < (tallyResults results (initRow h)).rounds then _ else (0:ℚ)) = (0:ℚ)
      have hr0 : (tallyResults results (initRow h)).rounds = 0 := by
        rw [hflatEq, tallyItems_rounds, hitems, hnil]
        simp [initRow]
      rw [if_neg (by rw [hr0]; exact lt_irrefl 0)]

/-- C5 witness: the amended theorem instantiated at the one-horse pool
`[wHorse]` and the single-round history `[lbResult]`. -/
theorem c5_leaderboard_aggregation_witness :
    ([wHorse].map (·.id)).Nodup ∧
    (∀ res ∈ [lbResult], ∀ it ∈ res.order, 1 ≤ it.position) ∧
    (∀ h ∈ [wHorse], ∃ row,
       row ∈ buildLeaderboard [wHorse] [lbResult] ∧ row.horseId = h.id ∧
       row.points
         = ((itemsFor h.id [lbResult]).map fun it => pointsForPosition it.position).sum ∧
       row.wins = ((itemsFor h.id [lbResult]).filter fun it => it.position == 1).length ∧
       row.podiums = ((itemsFor h.id [lbResult]).filter fun it =>
           decide (1 ≤ it.position ∧ it.position ≤ 3)).length ∧
       row.rounds = (itemsFor h.id [lbResult]).length ∧
       row.totalTimeMs = ((itemsFor h.id [lbResult]).map (·.timeMs)).sum ∧
       row.avgTimeMs
         = (if 0 < row.rounds then toFixed2 (row.totalTimeMs / (row.rounds : ℚ)) else 0)) :=
  ⟨by decide, by decide,
    (c5_leaderboard_aggregation [wHorse] [lbResult] (by decide) (by decide)).1⟩

theorem applyItem_unknown (rows : List SummaryRow) (it : RoundResultItem)
    (hno : ∀ row ∈ rows, row.horseId ≠ it.horseId) : applyItem rows it = rows := by
  unfold applyItem
  conv_rhs => rw [← List.map_id rows]
  apply List.map_congr_left
  intro r hr
  rw [if_neg (hno r hr)]
  rfl

theorem foldl_applyItem_filter (horses : List Horse) :
    ∀ (items : List RoundResultItem) (rows : List SummaryRow),
      rows.map (·.horseId) = horses.map (·.id) →
      items.foldl applyItem rows
        = (items.filter fun it => horses.any fun h => h.id == it.horseId).foldl
            applyItem rows := by
  intro items
  induction items with
  | nil => intro rows _; rfl
  | cons it rest ih =>
    intro rows hids
    rw [List.foldl_cons, List.filter_cons]
    by_cases hknown : (horses.any fun h => h.id == it.horseId) = true
    · rw [if_pos hknown, List.foldl_cons]
      exact ih (applyItem rows it) (by rw [applyItem_ids, hids])
    · rw [if_neg hknown]
      have hno : ∀ row ∈ rows, row.horseId ≠ it.horseId := by
        intro row hrow heq
        apply hknown
        have hmem : row.horseId ∈ rows.map (·.horseId) := List.mem_map_of_mem _ hrow
        rw [hids] at hmem
        obtain ⟨h, hh, hhid⟩ := List.mem_map.mp hmem
        exact List.any_eq_true.mpr ⟨h, hh, by simp [hhid, heq]⟩
      rw [applyItem_unknown rows it hno]
      exact ih rows hids

theorem summaryFold_filter (horses : List Horse) (results : List RoundResult) :
    summaryFold horses results
      = summaryFold horses (results.map fun res =>
          { res with order := res.order.filter fun it =>
              horses.any fun h => h.id == it.horseId }) := by
  unfold summaryFold
  suffices hgen : ∀ rows : List SummaryRow, rows.map (·.horseId) = horses.map (·.id) →
      results.foldl (fun acc r => r.order.foldl applyItem acc) rows
        = (results.map fun res =>
            { res with order := res.order.filter fun it =>
                horses.any fun h => h.id == it.horseId }).foldl
            (fun acc r => r.order.foldl applyItem acc) rows by
    apply hgen
    rw [List.map_map]
    rfl
  induction results with
  | nil => intro rows _; rfl
  | cons res rest ih =>
    intro rows hids
    rw [List.map_cons, List.foldl_cons, List.foldl_cons]
    have hord : ({ res with
                    order := res.order.filter fun it =>
                      horses.any fun h => h.id == it.horseId } : RoundResult).order
        = res.order.filter fun it => horses.any fun h => h.id == it.horseId := rfl
    rw [hord]
    rw [← foldl_applyItem_filter horses res.order rows hids]
    exact ih (res.order.foldl applyItem rows) (by rw [foldl_applyItem_ids, hids])

/-- C10: `buildLeaderboard` silently ignores result items whose horse id is not
in the competitor pool: every output row corresponds to a pool competitor, and
filtering the unknown-id items out of the result history leaves the returned
leaderboard unchanged (the model is total — no error is raised, matching the
`continue` in the source). -/
theorem c10_unknown_ids_ignored (horses : List Horse) (results : List RoundResult) :
    (∀ row ∈ buildLeaderboard horses results, ∃ h ∈ horses, row.horseId = h.id) ∧
    buildLeaderboard horses results
      = buildLeaderboard horses (results.map fun res =>
          { res with order := res.order.filter fun it =>
              horses.any fun h => h.id == it.horseId }) := by
  constructor
  · intro row hrow
    have hrow' : row ∈ (summaryFold horses results).map finalizeRow :=
      ((List.mergeSort_perm _ _).mem_iff).mp hrow
    obtain ⟨srow, hsrow, rfl⟩ := List.mem_map.mp hrow'
    have hmem : srow.horseId ∈ (summaryFold horses results).map (·.horseId) :=
      List.mem_map_of_mem _ hsrow
    rw [summaryFold_ids] at hmem
    obtain ⟨h, hh, hhid⟩ := List.mem_map.mp hmem
    exact ⟨h, hh, hhid.symm⟩
  · unfold buildLeaderboard
    rw [summaryFold_filter]

theorem count_set_add {α : Type _} [DecidableEq α] (l : List α) (i : ℕ) (hi : i < l.length)
    (b x : α) :
    (l.set i b).count x + (if l.get ⟨i, hi⟩ = x then 1 else 0)
      = l.count x + (if b = x then 1 else 0) := by
  have hcs := List.count_set b x l i hi
  have hmem : l.get ⟨i, hi⟩ ∈ l := List.get_mem ..
  have hge : l.get ⟨i, hi⟩ = x → 1 ≤ l.count x := by
    intro h
    exact List.count_pos_iff.mpr (h ▸ hmem)
  simp only [List.get_eq_getElem] at *
  by_cases c1 : l[i] = x
  · have hcount := hge c1
    by_cases c2 : b = x <;> simp [c1, c2] at hcs ⊢ <;> omega
  · by_cases c2 : b = x <;> simp [c1, c2] at hcs ⊢ <;> omega

theorem swapL_perm {α : Type _} [DecidableEq α] (l : List α) (i j : ℕ) :
    (swapL l i j).Perm l := by
  unfold swapL
  split
  case isTrue h =>
    obtain ⟨hi, hj⟩ := h
    rw [List.perm_iff_count]
    intro x
    have hj' : j < (l.set i (l.get ⟨j, hj⟩)).length := by simpa using hj
    have e1 := count_set_add (l.set i (l.get ⟨j, hj⟩)) j hj' (l.get ⟨i, hi⟩) x
    have e2 := count_set_add l i hi (l.get ⟨j, hj⟩) x
    have hget : (l.set i (l.get ⟨j, hj⟩)).get ⟨j, hj'⟩ = l.get ⟨j, hj⟩ := by
      simp only [List.get_eq_getElem, List.getElem_set]
      split <;> simp_all
    rw [hget] at e1
    by_cases c1 : l.get ⟨j, hj⟩ = x <;> by_cases c2 : l.get ⟨i, hi⟩ = x <;>
      simp [c1, c2] at e1 e2 ⊢ <;> omega
  case isFalse h => exact List.Perm.refl l

theorem shuffleAux_perm {α : Type _} [DecidableEq α] (rng : RandomSource) :
    ∀ (n : ℕ) (l : List α) (k : ℕ), ((shuffleAux rng n l k).1).Perm l := by
  intro n
  induction n with
  | zero => intro l k; exact List.Perm.refl l
  | succ i ih =>
    intro l k
    exact (ih _ _).trans (swapL_perm l (i + 1) _)

theorem shuffle_perm {α : Type _} [DecidableEq α] (items : List α) (rng : RandomSource)
    (k : ℕ) : ((shuffle items rng k).1).Perm items :=
  shuffleAux_perm rng (items.length - 1) items k

theorem sample_ok {α : Type _} (items : List α) (count : ℕ) (rng : RandomSource) (k : ℕ)
    (hle : count ≤ items.length) :
    sample items count rng k
      = Except.ok (((shuffle items rng k).1).take count, (shuffle items rng k).2) := by
  unfold sample
  rw [if_pos hle]

theorem take_shuffle_nodup {α : Type _} [DecidableEq α] (items : List α) (rng : RandomSource)
    (k count : ℕ) (hnd : items.Nodup) : (((shuffle items rng k).1).take count).Nodup :=
  (List.take_sublist _ _).nodup ((shuffle_perm items rng k).nodup_iff.mpr hnd)

theorem take_shuffle_length {α : Type _} [DecidableEq α] (items : List α) (rng : RandomSource)
    (k count : ℕ) (hle : count ≤ items.length) :
    (((shuffle items rng k).1).take count).length = count := by
  rw [List.length_take, (shuffle_perm items rng k).length_eq]
  omega

theorem toFixed2_ge_twelve (q : ℚ) (h : 1207 / 100 ≤ q) : 12 ≤ toFixed2 q := by
  unfold toFixed2
  have h1 : (1207.5 : ℚ) ≤ q * 100 + 1 / 2 := by linarith
  have h2 : (1207 : ℤ) ≤ ⌊q * 100 + 1 / 2⌋ := by
    have := Int.floor_le_floor h1
    rwa [show ⌊(1207.5 : ℚ)⌋ = 1207 from by norm_num [Int.floor_eq_iff]] at this
  have h3 : (1207 : ℚ) ≤ (⌊q * 100 + 1 / 2⌋ : ℚ) := by exact_mod_cast h2
  linarith

theorem buildHorses_length (rng : RandomSource) (colors : List String) :
    ∀ (names : List String) (idx k : ℕ),
      (buildHorses rng colors names idx k).length = names.length := by
  intro names
  induction names with
  | nil => intro idx k; rfl
  | cons name rest ih =>
    intro idx k
    simp [buildHorses, ih]

theorem buildHorses_names (rng : RandomSource) (colors : List String) :
    ∀ (names : List String) (idx k : ℕ),
      (buildHorses rng colors names idx k).map (·.name) = names := by
  intro names
  induction names with
  | nil => intro idx k; rfl
  | cons name rest ih =>
    intro idx k
    simp [buildHorses, ih]

theorem buildHorses_colors (rng : RandomSource) (colors : List String) :
    ∀ (names : List String) (idx k : ℕ),
      (buildHorses rng colors names idx k).map (·.color)
        = (List.range' idx names.length).map fun i => colors.getD i "" := by
  intro names
  induction names with
  | nil => intro idx k; rfl
  | cons name rest ih =>
    intro idx k
    simp only [buildHorses, List.map_cons, List.length_cons, List.range'_succ, ih]

theorem buildHorses_id (rng : RandomSource) (colors : List String) :
    ∀ (names : List String) (idx k : ℕ) (i : ℕ)
      (hi : i < (buildHorses rng colors names idx k).length),
      ((buildHorses rng colors names idx k).get ⟨i, hi⟩).id
        = "horse-" ++ toString (idx + i + 1) := by
  intro names
  induction names with
  | nil =>
    intro idx k i hi
    simp [buildHorses] at hi
  | cons name rest ih =>
    intro idx k i hi
    match i with
    | 0 => rfl
    | Nat.succ j =>
      have hlen : (buildHorses rng colors (name :: rest) idx k).length = rest.length + 1 := by
        rw [buildHorses_length]
        rfl
      have hj : j < (buildHorses rng colors rest (idx + 1)
          ((randomInt CONDITION_MIN CONDITION_MAX rng k).2 + 1)).length := by
        rw [buildHorses_length]
        rw [hlen] at hi
        omega
      have := ih (idx + 1) ((randomInt CONDITION_MIN CONDITION_MAX rng k).2 + 1) j hj
      rw [show ((buildHorses rng colors (name :: rest) idx k).get ⟨j + 1, hi⟩)
          = ((buildHorses rng colors rest (idx + 1)
              ((randomInt CONDITION_MIN CONDITION_MAX rng k).2 + 1)).get ⟨j, hj⟩) from rfl]
      rw [this]
      congr 1
      congr 1
      omega

theorem buildHorses_condition_pace (rng : RandomSource) (colors : List String)
    (hrng : ValidRng rng) :
    ∀ (names : List String) (idx k : ℕ) (h : Horse),
      h ∈ buildHorses rng colors names idx k →
      (∃ n : ℤ, h.condition = (n : ℚ)) ∧ 1 ≤ h.condition ∧ h.condition ≤ 100 ∧
        12 ≤ h.basePace := by
  intro names
  induction names with
  | nil =>
    intro idx k h hmem
    simp [buildHorses] at hmem
  | cons name rest ih =>
    intro idx k h hmem
    rw [buildHorses] at hmem
    rcases List.mem_cons.mp hmem with rfl | hmem'
    · have hr0 := (hrng k).1
      have hr1 := (hrng k).2
      constructor
      · exact ⟨⌊rng k * ((100 : ℚ) - 1 + 1)⌋ + 1, rfl⟩
      constructor
      · show (1 : ℚ) ≤ ((⌊rng k * ((100 : ℚ) - 1 + 1)⌋ + 1 : ℤ) : ℚ)
        have h0 : (0 : ℤ) ≤ ⌊rng k * ((100 : ℚ) - 1 + 1)⌋ := by
          rw [Int.floor_nonneg]
          nlinarith
        have h0' : (0 : ℚ) ≤ ((⌊rng k * ((100 : ℚ) - 1 + 1)⌋ : ℤ) : ℚ) := by
          exact_mod_cast h0
        push_cast
        linarith
      constructor
      · show ((⌊rng k * ((100 : ℚ) - 1 + 1)⌋ + 1 : ℤ) : ℚ) ≤ 100
        have h99 : ⌊rng k * ((100 : ℚ) - 1 + 1)⌋ ≤ 99 := by
          have : ⌊rng k * ((100 : ℚ) - 1 + 1)⌋ < 100 := by
            rw [Int.floor_lt]
            push_cast
            nlinarith
          omega
        have h99' : ((⌊rng k * ((100 : ℚ) - 1 + 1)⌋ : ℤ) : ℚ) ≤ 99 := by
          exact_mod_cast h99
        push_cast
        linarith
      · show 12 ≤ toFixed2 (BASE_PACE_MIN
          + ((⌊rng k * ((100 : ℚ) - 1 + 1)⌋ + 1 : ℤ) : ℚ) * BASE_PACE_CONDITION_SCALE
          + rng (k + 1) * BASE_PACE_RANDOM_SPREAD)
        apply toFixed2_ge_twelve
        have hc1 : (1 : ℚ) ≤ ((⌊rng k * ((100 : ℚ) - 1 + 1)⌋ + 1 : ℤ) : ℚ) := by
          have h0 : (0 : ℤ) ≤ ⌊rng k * ((100 : ℚ) - 1 + 1)⌋ := by
            rw [Int.floor_nonneg]
            nlinarith
          have h0' : (0 : ℚ) ≤ ((⌊rng k * ((100 : ℚ) - 1 + 1)⌋ : ℤ) : ℚ) := by
            exact_mod_cast h0
          push_cast
          linarith
        have hr2 := (hrng (k + 1)).1
        simp only [BASE_PACE_MIN, BASE_PACE_CONDITION_SCALE, BASE_PACE_RANDOM_SPREAD]
        have h22 : 0 ≤ rng (k + 1) * (2.2 : ℚ) := by nlinarith
        have h07 : (0.07 : ℚ) ≤ ((⌊rng k * ((100 : ℚ) - 1 + 1)⌋ + 1 : ℤ) : ℚ) * 0.07 :=
          le_mul_of_one_le_left (by norm_num) hc1
        linarith
    · exact ih (idx + 1) _ h hmem'

/-- C6: for `0 < count ≤ 20` and an RNG producing values in `[0,1)`,
`createHorsePool` returns exactly `count` competitors with pairwise-distinct
names, pairwise-distinct colors, integer conditions in `[1, 100]`, base pace at
least the fixed floor 12 (hence positive), and ids assigned by output position
as `horse-1` … `horse-count`; any count exceeding the 20-color palette (hence
also any count exceeding the 40-name list) fails with an invalid-argument
condition instead of truncating. -/
theorem c6_create_horse_pool (count : ℕ) (rng : RandomSource) (k : ℕ)
    (hrng : ValidRng rng) :
    (0 < count → count ≤ 20 →
      ∃ horses, createHorsePool count rng k = Except.ok horses ∧
        horses.length = count ∧
        (horses.map (·.name)).Nodup ∧
        (horses.map (·.color)).Nodup ∧
        (∀ h ∈ horses, (∃ n : ℤ, h.condition = (n : ℚ)) ∧ 1 ≤ h.condition ∧
          h.condition ≤ 100 ∧ 12 ≤ h.basePace ∧ 0 < h.basePace) ∧
        (∀ i (hi : i < horses.length),
          (horses.get ⟨i, hi⟩).id = "horse-" ++ toString (i + 1))) ∧
    (20 < count → ∃ msg, createHorsePool count rng k = Except.error msg) := by
  have hlenN : HORSE_NAME_POOL.length = 40 := rfl
  have hlenC : HORSE_COLOR_PALETTE.length = 20 := rfl
  constructor
  · intro h0 h20
    have h40 : count ≤ HORSE_NAME_POOL.length := by omega
    have h20' : count ≤ HORSE_COLOR_PALETTE.length := by omega
    set names := ((shuffle HORSE_NAME_POOL rng k).1).take count with hnames
    set k1 := (shuffle HORSE_NAME_POOL rng k).2 with hk1
    set colors := ((shuffle HORSE_COLOR_PALETTE rng k1).1).take count with hcolors
    set k2 := (shuffle HORSE_COLOR_PALETTE rng k1).2 with hk2
    have hne : (count = 0) = False := eq_false (by omega)
    have ha : (¬ count ≤ HORSE_NAME_POOL.length) = False := eq_false (by simp [h40])
    have hb : (¬ count ≤ HORSE_COLOR_PALETTE.length) = False := eq_false (by simp [h20'])
    have hpool : createHorsePool count rng k = Except.ok (buildHorses rng colors names 0 k2) := by
      simp only [createHorsePool, hne, ha, hb, if_false,
        sample_ok HORSE_NAME_POOL count rng k h40,
        sample_ok HORSE_COLOR_PALETTE count rng k1 h20']
    have hnameslen : names.length = count := take_shuffle_length _ _ _ _ h40
    have hcolorslen : colors.length = count := take_shuffle_length _ _ _ _ h20'
    have hlen : (buildHorses rng colors names 0 k2).length = count := by
      rw [buildHorses_length, hnameslen]
    refine ⟨buildHorses rng colors names 0 k2, hpool, hlen, ?_, ?_, ?_, ?_⟩
    · rw [buildHorses_names]
      exact take_shuffle_nodup _ _ _ _ (by decide)
    · rw [buildHorses_colors]
      have hcnd : colors.Nodup := take_shuffle_nodup _ _ _ _ (by decide)
      apply List.Nodup.map_on ?_ (List.nodup_range' _ _)
      intro x hx y hy hxy
      have hx' : x < count := by
        obtain ⟨i, hi, rfl⟩ := List.mem_range'.mp hx
        omega
      have hy' : y < count := by
        obtain ⟨i, hi, rfl⟩ := List.mem_range'.mp hy
        omega
      rw [List.getD_eq_getElem colors "" (by omega : x < colors.length),
        List.getD_eq_getElem colors "" (by omega : y < colors.length)] at hxy
      exact (hcnd.getElem_inj_iff).mp hxy
    · intro h hmem
      obtain ⟨hint, h1, h100, h12⟩ := buildHorses_condition_pace rng colors hrng names 0 k2 h hmem
      exact ⟨hint, h1, h100, h12, by linarith⟩
    · intro i hi
      rw [buildHorses_id]
      congr 2
      omega
  · intro h20
    by_cases h40 : count ≤ HORSE_NAME_POOL.length
    · refine ⟨"Horse count exceeds available predefined colors", ?_⟩
      unfold createHorsePool
      rw [if_neg (by omega : ¬ count = 0), if_neg (by simp [h40]),
        if_pos (by rw [hlenC]; omega : ¬ count ≤ HORSE_COLOR_PALETTE.length)]
    · refine ⟨"Horse count exceeds available unique names", ?_⟩
      unfold createHorsePool
      rw [if_neg (by omega : ¬ count = 0), if_pos h40]

/-- C6 witness: the theorem instantiated at `count = 2` with the all-zero RNG. -/
theorem c6_create_horse_pool_witness :
    (0 < 2 → 2 ≤ 20 →
      ∃ horses, createHorsePool 2 rng0 0 = Except.ok horses ∧
        horses.length = 2 ∧
        (horses.map (·.name)).Nodup ∧
        (horses.map (·.color)).Nodup ∧
        (∀ h ∈ horses, (∃ n : ℤ, h.condition = (n : ℚ)) ∧ 1 ≤ h.condition ∧
          h.condition ≤ 100 ∧ 12 ≤ h.basePace ∧ 0 < h.basePace) ∧
        (∀ i (hi : i < horses.length),
          (horses.get ⟨i, hi⟩).id = "horse-" ++ toString (i + 1))) ∧
    (20 < 2 → ∃ msg, createHorsePool 2 rng0 0 = Except.error msg) :=
  c6_create_horse_pool 2 rng0 0 (fun n => by norm_num [rng0])

theorem buildRounds_ok (horseIds : List String) (rng : RandomSource)
    (hle : HORSES_PER_ROUND ≤ horseIds.length) (hnd : horseIds.Nodup) :
    ∀ (ds : List ℚ) (ridx k : ℕ),
      ∃ rounds, buildRounds horseIds rng ds ridx k = Except.ok rounds ∧
        rounds.map (·.distance) = ds ∧
        rounds.map (·.id) = List.range' (ridx + 1) ds.length ∧
        ∀ r ∈ rounds, r.status = "pending" ∧ r.horseIds.length = HORSES_PER_ROUND ∧
          r.horseIds.Nodup := by
  intro ds
  induction ds with
  | nil => intro ridx k; exact ⟨[], rfl, rfl, rfl, by simp⟩
  | cons d rest ih =>
    intro ridx k
    obtain ⟨rounds', heq, hd, hid, hprop⟩ := ih (ridx + 1) ((shuffle horseIds rng k).2)
    refine ⟨{ id := ridx + 1, distance := d,
              horseIds := ((shuffle horseIds rng k).1).take HORSES_PER_ROUND,
              status := "pending" } :: rounds', ?_, ?_, ?_, ?_⟩
    · simp only [buildRounds, sample_ok horseIds HORSES_PER_ROUND rng k hle, heq]
    · simp [hd]
    · simp [hid, List.range'_succ]
    · intro r hr
      rcases List.mem_cons.mp hr with rfl | hr'
      · exact ⟨rfl, take_shuffle_length _ _ _ _ hle, take_shuffle_nodup _ _ _ _ hnd⟩
      · exact hprop r hr'

/-- C7: `buildRaceSchedule` fails with an invalid-argument condition exactly
when the pool holds fewer than 10 competitors; otherwise (for a pool with
distinct ids, as generated pools have) it returns exactly 6 rounds with the
fixed ascending distances 1200…2200 and ids 1…6, each holding exactly 10
pairwise-distinct competitor ids and starting in the pending status. -/
theorem c7_build_race_schedule (horses : List Horse) (rng : RandomSource) (k : ℕ)
    (hnd : (horses.map (·.id)).Nodup) :
    ROUND_DISTANCES = [1200, 1400, 1600, 1800, 2000, 2200] ∧
    (horses.length < 10 → ∃ msg, buildRaceSchedule horses rng k = Except.error msg) ∧
    (10 ≤ horses.length →
      ∃ rounds, buildRaceSchedule horses rng k = Except.ok rounds ∧
        rounds.length = 6 ∧
        rounds.map (·.distance) = [1200, 1400, 1600, 1800, 2000, 2200] ∧
        rounds.map (·.id) = [1, 2, 3, 4, 5, 6] ∧
        ∀ r ∈ rounds, r.status = "pending" ∧ r.horseIds.length = 10 ∧
          r.horseIds.Nodup) := by
  refine ⟨rfl, ?_, ?_⟩
  · intro hlt
    refine ⟨"At least 10 horses are required", ?_⟩
    unfold buildRaceSchedule
    rw [if_neg (by show ¬ (10 : ℕ) ≤ horses.length; omega)]
  · intro hge
    have hlen : HORSES_PER_ROUND ≤ (horses.map (·.id)).length := by
      rw [List.length_map]
      exact hge
    obtain ⟨rounds, heq, hd, hid, hprop⟩ :=
      buildRounds_ok (horses.map (·.id)) rng hlen hnd ROUND_DISTANCES 0 k
    refine ⟨rounds, ?_, ?_, hd, hid, ?_⟩
    · unfold buildRaceSchedule
      rw [if_pos (by show (10 : ℕ) ≤ horses.length; omega)]
      exact heq
    · have := congrArg List.length hd
      simpa using this
    · intro r hr
      exact hprop r hr

/-- C7 witness: the theorem instantiated at a concrete pool of 10 horses with
distinct ids and the all-zero RNG. -/
theorem c7_build_race_schedule_witness :
    ROUND_DISTANCES = [1200, 1400, 1600, 1800, 2000, 2200] ∧
    (tenHorses.length < 10 → ∃ msg, buildRaceSchedule tenHorses rng0 0 = Except.error msg) ∧
    (10 ≤ tenHorses.length →
      ∃ rounds, buildRaceSchedule tenHorses rng0 0 = Except.ok rounds ∧
        rounds.length = 6 ∧
        rounds.map (·.distance) = [1200, 1400, 1600, 1800, 2000, 2200] ∧
        rounds.map (·.id) = [1, 2, 3, 4, 5, 6] ∧
        ∀ r ∈ rounds, r.status = "pending" ∧ r.horseIds.length = 10 ∧
          r.horseIds.Nodup) :=
  c7_build_race_schedule tenHorses rng0 0 (by decide)

end RaceEngine